import Mathlib

/-!
Shallow embedding of the min-gpu-time GPU-cluster scheduling simulator
(`src/core/gpu.py`, `src/core/rack.py`, `src/core/cluster.py`,
`src/core/task.py`, `src/schedulers/base.py`, `src/schedulers/min_gpu_time.py`,
`src/schedulers/pollux.py`, `src/schedulers/pollux_patient.py`,
`src/simulator.py`), together with theorems settling the claims about it.

Modelling conventions:
* Python floats are modelled as exact rationals (`ℚ`); every comparison in
  the source is a plain comparison that the rational model reproduces.
* Python lists and dicts become Lean lists (dicts as association lists in
  insertion order, which is Python's iteration order).
* Mutation of the object graph becomes explicit state passing.  GPUs are
  owned by racks; the cluster's `gpu_map` is the flattened rack list, so a
  single store (the rack list) models the aliased Python objects.
* The write-only metrics sink never feeds back into the simulation state,
  so it is not modelled.
* The scheduler passed to the simulator is modelled as a function from
  (cluster state, pending tasks, time) to (placement list, cluster state);
  the concrete schedulers of the repository are also embedded below.
* The `alpha` exponent of the Pollux family is modelled as a natural
  number so that `n ** alpha` stays inside `ℚ` (the source allows float
  exponents; all claims here are about other parameters).
-/

/- Batteries marks the rational-arithmetic operations irreducible, which
blocks `decide` on concrete rational computations; restore the default
reducibility so that concrete runs of the embedded code evaluate. -/
set_option allowUnsafeReducibility true in
attribute [semireducible] Rat.add Rat.mul Rat.sub Rat.inv Rat.div Rat.ofScientific

namespace MinGpu

/-! ## Task model (`src/core/task.py`) -/

/-- Lifecycle states of `TaskStatus`. -/
inductive TStatus where
  | pending
  | running
  | completed
  | starved
deriving DecidableEq, Inhabited

/-- The `Task` dataclass. -/
structure Task where
  task_id : String
  num_gpus : ℕ
  memory_per_gpu : ℚ
  submission_time : ℚ
  estimated_duration : ℚ
  status : TStatus := .pending
  start_time : Option ℚ := none
  completion_time : Option ℚ := none
  allocated_gpus : List String := []
  actual_duration : Option ℚ := none
deriving DecidableEq, Inhabited

/-- The `Task.start` method. -/
def Task.start (t : Task) (now : ℚ) (gpus : List String) : Task :=
  { t with status := .running, start_time := some now, allocated_gpus := gpus }

/-- The `Task.complete` method. -/
def Task.complete (t : Task) (now : ℚ) : Task :=
  { t with status := .completed, completion_time := some now,
           actual_duration :=
             match t.start_time with
             | some s => some (now - s)
             | none => t.actual_duration }

/-- The `Task.mark_starved` method. -/
def Task.markStarved (t : Task) : Task :=
  { t with status := .starved }

/-! ## GPU model (`src/core/gpu.py`) -/

/-- The `GPU` dataclass. -/
structure GPU where
  gpu_id : String
  rack_id : String
  total_memory : ℚ
  used_memory : ℚ := 0
  running_tasks : List String := []
  total_time : ℚ := 0
deriving DecidableEq, Inhabited

/-- The method `GPU.can_allocate`. -/
def GPU.can_allocate (g : GPU) (m : ℚ) : Bool :=
  decide (g.used_memory + m ≤ g.total_memory)

/-- The method `GPU.allocate`; returns the new state and the Python result. -/
def GPU.allocate (g : GPU) (tid : String) (m : ℚ) : GPU × Bool :=
  if g.can_allocate m then
    ({ g with used_memory := g.used_memory + m,
              running_tasks :=
                if tid ∈ g.running_tasks then g.running_tasks
                else g.running_tasks ++ [tid] }, true)
  else (g, false)

/-- The method `GPU.deallocate`: remove the first occurrence of the id (a
no-op when absent), then clamp the memory subtraction at zero. -/
def GPU.deallocate (g : GPU) (tid : String) (m : ℚ) : GPU :=
  { g with running_tasks := g.running_tasks.erase tid,
           used_memory := max 0 (g.used_memory - m) }

/-- The method `GPU.get_available_memory`. -/
def GPU.availableMemory (g : GPU) : ℚ :=
  g.total_memory - g.used_memory

/-- The method `GPU.add_time`. -/
def GPU.addTime (g : GPU) (dt : ℚ) : GPU :=
  if g.running_tasks.isEmpty then g
  else { g with total_time := g.total_time + dt }

/-- A freshly constructed GPU (only `gpu_id`, `rack_id`, `total_memory` are
passed in `Rack.__init__`; the remaining fields take dataclass defaults). -/
def freshGPU (id rid : String) (cap : ℚ) : GPU :=
  { gpu_id := id, rack_id := rid, total_memory := cap }

/-! ## Rack and cluster model (`src/core/rack.py`, `src/core/cluster.py`) -/

/-- The `Rack` class (the fields the core uses: its id and its GPUs). -/
structure Rack where
  rack_id : String
  gpus : List GPU
deriving DecidableEq, Inhabited

/-- Rack construction: GPUs `rack_id-0 … rack_id-(n-1)`. -/
def mkRack (rid : String) (n : ℕ) (mem : ℚ) : Rack :=
  { rack_id := rid,
    gpus := (List.range n).map fun j => freshGPU (rid ++ "-" ++ toString j) rid mem }

/-- The `Rack.get_available_gpus` method: GPUs with free memory. -/
def Rack.availableGpus (r : Rack) : List GPU :=
  r.gpus.filter fun g => decide (0 < g.availableMemory)

/-- The `Cluster` class.  The Python `gpu_map` aliases the rack-owned GPU
objects in insertion order, so it is derived below as the flattened rack
list rather than stored twice. -/
structure Cluster where
  num_racks : ℕ
  gpus_per_rack : ℕ
  gpu_memory : ℚ
  intra_rack_penalty : ℚ
  inter_rack_penalty : ℚ
  racks : List Rack
deriving DecidableEq, Inhabited

/-- Cluster construction (`Cluster.__init__`). -/
def mkCluster (nr ng : ℕ) (mem intra inter : ℚ) : Cluster :=
  { num_racks := nr, gpus_per_rack := ng, gpu_memory := mem,
    intra_rack_penalty := intra, inter_rack_penalty := inter,
    racks := (List.range nr).map fun i => mkRack ("rack-" ++ toString i) ng mem }

/-- The `Cluster.get_all_gpus` enumeration (the `gpu_map` values, in
insertion order: rack order, then GPU order within each rack). -/
def Cluster.allGpus (c : Cluster) : List GPU :=
  (c.racks.map Rack.gpus).flatten

/-- The `Cluster.get_gpu` lookup. -/
def Cluster.getGpu (c : Cluster) (id : String) : Option GPU :=
  c.allGpus.find? fun g => g.gpu_id == id

/-- Point update of the GPU with the given id (Python mutates the aliased
object in place; ids are unique for constructed clusters). -/
def Cluster.updateGpu (c : Cluster) (id : String) (f : GPU → GPU) : Cluster :=
  { c with racks := c.racks.map fun r =>
      { r with gpus := r.gpus.map fun g => if g.gpu_id == id then f g else g } }

/-- The `Cluster.get_available_gpus` enumeration. -/
def Cluster.availableGpus (c : Cluster) : List GPU :=
  c.allGpus.filter fun g => decide (0 < g.availableMemory)

/-- The `Cluster.calculate_penalty` function. -/
def Cluster.calculate_penalty (c : Cluster) (ids : List String) : ℚ :=
  if ids.length ≤ 1 then 1
  else
    let racksUsed := (ids.filterMap fun id => (c.getGpu id).map GPU.rack_id).dedup
    if racksUsed.length = 1 then c.intra_rack_penalty
    else c.inter_rack_penalty

/-- Uniqueness of GPU ids across a cluster (holds for every constructed
cluster and is preserved by field updates, which never change ids). -/
def Cluster.uniqueIds (c : Cluster) : Prop :=
  (c.allGpus.map GPU.gpu_id).Nodup

instance (c : Cluster) : Decidable c.uniqueIds := by
  unfold Cluster.uniqueIds
  infer_instance

/-! ## Sequences of GPU operations -/

/-- One call on a GPU object: `allocate`, `deallocate` or `add_time`. -/
inductive GpuOp where
  | alloc (tid : String) (m : ℚ)
  | dealloc (tid : String) (m : ℚ)
  | tick (dt : ℚ)
deriving DecidableEq

/-- Effect of one call on the GPU state (the boolean result of `allocate`
is discarded, as callers that ignore it do). -/
def GpuOp.apply (g : GPU) : GpuOp → GPU
  | .alloc tid m => (g.allocate tid m).1
  | .dealloc tid m => g.deallocate tid m
  | .tick dt => g.addTime dt

/-- Replay a call sequence on a GPU. -/
def applyOps (g : GPU) (ops : List GpuOp) : GPU :=
  ops.foldl GpuOp.apply g

/-- Matched call sequences on a GPU, with a ghost map `f` recording the
memory each resident job reserved: an `allocate` targets a job that is not
resident and reserves positive memory (the call itself may still fail on
capacity, in which case the state is unchanged); a `deallocate` releases a
resident job with exactly the memory it reserved; `add_time` is free.
`Reach g f g' f'` means `g'` (with ghost `f'`) is reachable from `g` (with
ghost `f`) by such a sequence. -/
inductive Reach : GPU → (String → ℚ) → GPU → (String → ℚ) → Prop where
  | refl (g : GPU) (f : String → ℚ) : Reach g f g f
  | alloc (g : GPU) (f : String → ℚ) (tid : String) (m : ℚ)
      (g' : GPU) (f' : String → ℚ)
      (hnot : tid ∉ g.running_tasks) (hm : 0 < m)
      (h : Reach (g.allocate tid m).1 (Function.update f tid m) g' f') :
      Reach g f g' f'
  | dealloc (g : GPU) (f : String → ℚ) (tid : String)
      (g' : GPU) (f' : String → ℚ)
      (hmem : tid ∈ g.running_tasks)
      (h : Reach (g.deallocate tid (f tid)) f g' f') :
      Reach g f g' f'
  | tick (g : GPU) (f : String → ℚ) (dt : ℚ)
      (g' : GPU) (f' : String → ℚ)
      (h : Reach (g.addTime dt) f g' f') :
      Reach g f g' f'

/-- The memory-accounting invariant tying a GPU state to its ghost map. -/
def GpuInv (g : GPU) (f : String → ℚ) : Prop :=
  g.running_tasks.Nodup ∧
  (∀ tid ∈ g.running_tasks, 0 < f tid) ∧
  g.used_memory = (g.running_tasks.map f).sum ∧
  g.used_memory ≤ g.total_memory

/-! ## Simulator sharing-penalty computation (`src/simulator.py`) -/

/-- Simulator configuration (`SimulatorConfig` in `src/config/config.py`).
`max_time` is passed to `run` explicitly here; a `starvation_threshold` of
`none` models `float('inf')` ("never"). -/
structure SimCfg where
  starvation_threshold : Option ℚ := none
  time_step : ℚ := 1
  timeline_interval : ℚ := 60
  sharing_penalty_map : List (ℕ × ℚ) := [(1, 1), (2, 9/10), (3, 4/5)]
  sharing_penalty_floor : ℚ := 1/2
  sharing_penalty_fn : Option (ℕ → ℚ) := none
  sharing_penalty_aggregation : String := "min"

/-- Dict lookup in an association list (Python dict keys are unique; the
first hit is the binding). -/
def lookupQ (l : List (ℕ × ℚ)) (k : ℕ) : Option ℚ :=
  (l.find? fun p => p.1 == k).map Prod.snd

/-- Python `max(d.keys())` over the association list (callers guard
against the empty dict, for which Python would raise). -/
def maxKey (l : List (ℕ × ℚ)) : ℕ :=
  l.foldl (fun a p => max a p.1) 0

/-- Python `s.lower()` restricted to the character-wise lowering the code
relies on. -/
def pyLower (s : String) : String :=
  String.mk (s.data.map Char.toLower)

/-- Python truthiness of `aggregation or "min"`. -/
def pyOrMin (s : String) : String :=
  if s = "" then "min" else s

/-- The method `Simulator._get_gpu_sharing_penalty`. -/
def getGpuSharingPenalty (cfg : SimCfg) (k : ℕ) : ℚ :=
  let tc := max 1 k
  let value : ℚ :=
    match cfg.sharing_penalty_fn with
    | some fn => fn tc
    | none =>
      match lookupQ cfg.sharing_penalty_map tc with
      | some v => v
      | none =>
        if cfg.sharing_penalty_map.isEmpty then 1
        else (lookupQ cfg.sharing_penalty_map (maxKey cfg.sharing_penalty_map)).getD 1
  max cfg.sharing_penalty_floor (min 1 value)

/-- The method `Simulator._get_task_sharing_penalty`. -/
def getTaskSharingPenalty (cfg : SimCfg) (c : Cluster) (t : Task) : ℚ :=
  if t.allocated_gpus.isEmpty then 1
  else
    let ps := t.allocated_gpus.filterMap fun id =>
      (c.getGpu id).map fun g => getGpuSharingPenalty cfg g.running_tasks.length
    match ps with
    | [] => 1
    | p :: rest =>
      if pyLower (pyOrMin cfg.sharing_penalty_aggregation) = "average" then
        (p :: rest).sum / ((p :: rest).length : ℚ)
      else rest.foldl min p

/-- The raw per-GPU efficiency `E_gpu(k)` of the specification: the map
value at `k`, the value at the largest key when `k` is absent, the
configured function instead of the map when present. -/
def specLookupE (cfg : SimCfg) (k : ℕ) : ℚ :=
  match cfg.sharing_penalty_fn with
  | some fn => fn k
  | none =>
    match lookupQ cfg.sharing_penalty_map k with
    | some v => v
    | none => (lookupQ cfg.sharing_penalty_map (maxKey cfg.sharing_penalty_map)).getD 1

/-- The specification's clamp to `[sharing_penalty_floor, 1.0]`. -/
def specClampE (cfg : SimCfg) (v : ℚ) : ℚ :=
  max cfg.sharing_penalty_floor (min 1 v)

/-- Occupancy `k = |occupancy(g)|` of the GPU behind an id. -/
def specOccupancy (c : Cluster) (id : String) : ℕ :=
  ((c.getGpu id).map fun g => g.running_tasks.length).getD 0

/-- Sharing factor of a running job, written from the words of the
specification (§4.11 "Sharing factor for a running job j"): per GPU `g` of
the placement with `k` resident jobs, look `E_gpu(k)` up in the map (the
value at the largest key when `k` is absent), use the configured function
instead of the map when present, clamp to the floor and 1.0, and aggregate
with `min` or the arithmetic mean according to the aggregation setting. -/
def specSharingFactor (cfg : SimCfg) (c : Cluster) (t : Task) : ℚ :=
  match t.allocated_gpus.map fun id => specClampE cfg (specLookupE cfg (specOccupancy c id)) with
  | [] => 1
  | e :: rest =>
    if cfg.sharing_penalty_aggregation = "average" then
      (e :: rest).sum / ((e :: rest).length : ℚ)
    else rest.foldl min e

/-! ## Scheduler base class (`src/schedulers/base.py`) -/

/-- The base `Scheduler.can_allocate` check: the placement size must equal
the task's demand and every listed GPU must accept the per-GPU memory. -/
def canPlace (c : Cluster) (t : Task) (ids : List String) : Bool :=
  decide (ids.length = t.num_gpus) &&
    ids.all fun id =>
      match c.getGpu id with
      | some g => g.can_allocate t.memory_per_gpu
      | none => false

/-- One `gpu.allocate` call through the cluster store (`gpu.allocate`
itself re-checks capacity and no-ops on failure; callers discard the
boolean). -/
def clusterAllocGpu (c : Cluster) (id tid : String) (m : ℚ) : Cluster :=
  c.updateGpu id fun g => (g.allocate tid m).1

/-- The base `Scheduler.allocate`: check, then reserve on every GPU. -/
def schedAllocate (c : Cluster) (t : Task) (ids : List String) : Cluster × Bool :=
  if canPlace c t ids then
    (ids.foldl (fun cl id => clusterAllocGpu cl id t.task_id t.memory_per_gpu) c, true)
  else (c, false)

/-- The `PolluxScheduler.allocate` override: identical but without the
placement-size check (elastic widths allowed). -/
def polluxCanPlace (c : Cluster) (t : Task) (ids : List String) : Bool :=
  ids.all fun id =>
    match c.getGpu id with
    | some g => g.can_allocate t.memory_per_gpu
    | none => false

/-- The `PolluxScheduler.allocate` override. -/
def polluxAllocate (c : Cluster) (t : Task) (ids : List String) : Cluster × Bool :=
  if polluxCanPlace c t ids then
    (ids.foldl (fun cl id => clusterAllocGpu cl id t.task_id t.memory_per_gpu) c, true)
  else (c, false)

/-- The base `Scheduler.deallocate`: release every GPU of the task's
placement (skipping unknown ids). -/
def schedDeallocate (c : Cluster) (t : Task) : Cluster :=
  t.allocated_gpus.foldl
    (fun cl id =>
      match cl.getGpu id with
      | some _ => cl.updateGpu id fun g => g.deallocate t.task_id t.memory_per_gpu
      | none => cl)
    c

/-! ## Min-GPU-Time scheduler (`src/schedulers/min_gpu_time.py`) -/

/-- The per-rack candidate of `MinGPUTimeScheduler.schedule`: the rack's
free GPUs not already claimed in this call, narrowed to those that accept
the memory, the first `num_gpus` of them if enough qualify. -/
def mgtRackCandidate (c : Cluster) (used : List String) (t : Task) (r : Rack) :
    Option (List String × ℚ) :=
  let rackFree := (r.availableGpus.map GPU.gpu_id).filter fun id => decide (id ∉ used)
  let valid := rackFree.filter fun id =>
    match c.getGpu id with
    | some g => g.can_allocate t.memory_per_gpu
    | none => false
  if t.num_gpus ≤ valid.length then
    some (valid.take t.num_gpus, c.calculate_penalty (valid.take t.num_gpus))
  else none

/-- The placement search of `MinGPUTimeScheduler.schedule`: minimum-penalty
rack candidate, else a global first-fit over qualifying GPUs. -/
def mgtBest (c : Cluster) (used : List String) (t : Task) :
    Option (List String × ℚ) :=
  let rackBest := c.racks.foldl
    (fun acc r =>
      match mgtRackCandidate c used t r with
      | none => acc
      | some (cand, pen) =>
        match acc with
        | none => some (cand, pen)
        | some (_, p) => if pen < p then some (cand, pen) else acc)
    none
  match rackBest with
  | some b => some b
  | none =>
    let allFree := c.availableGpus.filter fun g => decide (g.gpu_id ∉ used)
    let valid := (allFree.filter fun g => g.can_allocate t.memory_per_gpu).map GPU.gpu_id
    if t.num_gpus ≤ valid.length then
      some (valid.take t.num_gpus, c.calculate_penalty (valid.take t.num_gpus))
    else none

/-- Placement decisions accumulated within one `schedule` call, in
insertion order (the Python dict). -/
abbrev Placements := List (String × List String)

/-- GPU ids already claimed in this call
(`[a for alloc in allocations.values() for a in alloc]`). -/
def placedIds (allocs : Placements) : List String :=
  (allocs.map Prod.snd).flatten

/-- One iteration of the task loop in `MinGPUTimeScheduler.schedule`. -/
def mgtStep (patience limit now : ℚ) (st : Placements × Cluster) (t : Task) :
    Placements × Cluster :=
  let (allocs, c) := st
  if t.status ≠ .pending then st
  else
    match mgtBest c (placedIds allocs) t with
    | none => st
    | some (cand, pen) =>
      if cand.isEmpty then st
      else if pen ≤ patience ∨ now - t.submission_time > limit then
        match schedAllocate c t cand with
        | (c', true) => (allocs ++ [(t.task_id, cand)], c')
        | (_, false) => st
      else st

/-- The full `MinGPUTimeScheduler.schedule` call. -/
def mgtSchedule (patience limit : ℚ) (c : Cluster) (pending : List Task)
    (now : ℚ) : Placements × Cluster :=
  pending.foldl (mgtStep patience limit now) ([], c)

/-! ## Pollux-Patient scheduler (`src/schedulers/pollux_patient.py`) -/

/-- The sharing map `PolluxPatientScheduler.__init__` copies from
`default_simulator_config.sharing_penalty_map`. -/
def ppMap : List (ℕ × ℚ) := [(1, 1), (2, 9/10), (3, 4/5)]

/-- The method `PolluxPatientScheduler._get_sharing_penalty`: predicted
efficiency if one more task lands on the GPU. -/
def ppSharing (c : Cluster) (id : String) : ℚ :=
  match c.getGpu id with
  | none => 1
  | some g =>
    let nc := g.running_tasks.length + 1
    match lookupQ ppMap nc with
    | some v => v
    | none => (lookupQ ppMap (maxKey ppMap)).getD 1

/-- Stable insertion into a list sorted ascending by `key` (a new element
goes after existing elements with an equal key). -/
def insertByKey {α : Type} (key : α → ℚ) (x : α) : List α → List α
  | [] => [x]
  | y :: ys => if key y ≤ key x then y :: insertByKey key x ys else x :: y :: ys

/-- Python `sorted(l, key=key)`: a stable ascending sort. -/
def sortByKey {α : Type} (key : α → ℚ) (l : List α) : List α :=
  l.foldl (fun acc x => insertByKey key x acc) []

/-- The per-rack candidates for width `n` in
`PolluxPatientScheduler.schedule`: each rack with at least `n` qualifying
GPUs contributes its `n` best by predicted sharing efficiency. -/
def ppRackCandidates (c : Cluster) (occupied : List String) (m : ℚ) (n : ℕ) :
    List (List String) :=
  c.racks.filterMap fun r =>
    let rg := ((r.availableGpus.filter fun g =>
        decide (g.gpu_id ∉ occupied) && g.can_allocate m).map GPU.gpu_id)
    if n ≤ rg.length then
      some ((sortByKey (fun id => -(ppSharing c id)) rg).take n)
    else none

/-- The qualifying GPUs for a task in `PolluxPatientScheduler.schedule`. -/
def ppAvailable (c : Cluster) (occupied : List String) (m : ℚ) : List GPU :=
  c.allGpus.filter fun g => decide (g.gpu_id ∉ occupied) && g.can_allocate m

/-- The global candidate for width `n`: the `n` best qualifying GPUs by
predicted sharing efficiency. -/
def ppGlobalCandidate (c : Cluster) (available : List GPU) (n : ℕ) :
    List String :=
  ((sortByKey (fun g => -(ppSharing c g.gpu_id)) available).map GPU.gpu_id).take n

/-- Total cost of a candidate placement: topology penalty times the
reciprocal of the mean predicted sharing efficiency. -/
def ppCost (c : Cluster) (alloc : List String) : ℚ :=
  let topo := c.calculate_penalty alloc
  let effs := alloc.map (ppSharing c)
  let avg := effs.sum / (effs.length : ℚ)
  topo * (1 / avg)

/-- Candidate score `n ** alpha / total_cost`. -/
def ppScore (alpha : ℕ) (n : ℕ) (cost : ℚ) : ℚ :=
  ((n : ℚ) ^ alpha) / cost

/-- One candidate comparison for width `n`: keep the strictly best score
(the initial best score is Python's `-inf`, modelled as `none`). -/
def ppCandStep (alpha : ℕ) (c : Cluster) (n : ℕ)
    (st : Option (List String × ℕ × ℚ) × Option ℚ) (alloc : List String) :
    Option (List String × ℕ × ℚ) × Option ℚ :=
  let cost := ppCost c alloc
  let score := ppScore alpha n cost
  match st.2 with
  | none => (some (alloc, n, cost), some score)
  | some s => if score > s then (some (alloc, n, cost), some score) else st

/-- Fold the candidates of one width `n` (each qualifying rack's candidate,
then the global candidate). -/
def ppStepN (alpha : ℕ) (c : Cluster) (occupied : List String) (m : ℚ)
    (available : List GPU)
    (acc : Option (List String × ℕ × ℚ) × Option ℚ) (n : ℕ) :
    Option (List String × ℕ × ℚ) × Option ℚ :=
  (ppRackCandidates c occupied m n ++ [ppGlobalCandidate c available n]).foldl
    (ppCandStep alpha c n) acc

/-- The candidate search of `PolluxPatientScheduler.schedule` for one
task: widths `1 … min(num_gpus, #available)`, returning the best
`(placement, n, total_cost)`. -/
def ppBest (alpha : ℕ) (c : Cluster) (occupied : List String) (t : Task) :
    Option (List String × ℕ × ℚ) :=
  let available := ppAvailable c occupied t.memory_per_gpu
  if available.length < 1 then none
  else
    ((((List.range (min t.num_gpus available.length)).map (· + 1)).foldl
        (ppStepN alpha c occupied t.memory_per_gpu available) (none, none)).1)

/-- The `PolluxPatientScheduler` parameter record. -/
structure PPSched where
  alpha : ℕ
  patience_threshold : ℚ
  starvation_limit : ℚ

/-- The `PolluxPatientScheduler.__init__`: the passed threshold argument
is ignored and the stored efficiency threshold is the constant `0.8`. -/
def mkPPSched (alpha : ℕ) (patience : ℚ) (limit : ℚ) : PPSched :=
  { alpha := alpha, patience_threshold := 4/5, starvation_limit := limit }

/-- One iteration of the task loop in `PolluxPatientScheduler.schedule`. -/
def ppStep (alpha : ℕ) (patience limit now : ℚ)
    (st : Placements × List String × Cluster) (t : Task) :
    Placements × List String × Cluster :=
  let (allocs, occupied, c) := st
  if t.status ≠ .pending then st
  else
    match ppBest alpha c occupied t with
    | none => st
    | some (cand, _, cost) =>
      if cand.isEmpty then st
      else if 1 / cost ≥ patience ∨ now - t.submission_time > limit then
        match polluxAllocate c t cand with
        | (c', true) => (allocs ++ [(t.task_id, cand)], occupied ++ cand, c')
        | (_, false) => st
      else st

/-- The full `PolluxPatientScheduler.schedule` call. -/
def ppSchedule (s : PPSched) (c : Cluster) (pending : List Task) (now : ℚ) :
    Placements × Cluster :=
  let r := pending.foldl
    (ppStep s.alpha s.patience_threshold s.starvation_limit now) ([], [], c)
  (r.1, r.2.2)

/-! ## Simulator (`src/simulator.py`) -/

/-- A scheduling policy as the simulator sees it: from the cluster state,
the pending list and the current time to a placement map and the cluster
state after the scheduler's own reservations. -/
def SchedFn : Type :=
  Cluster → List Task → ℚ → Placements × Cluster

/-- Python `wait_time > self.starvation_threshold` where the threshold may
be `float('inf')` (modelled as `none`, for which the comparison is false). -/
def gtThr (w : ℚ) : Option ℚ → Bool
  | some s => decide (s < w)
  | none => false

/-- Python `int(q)` (truncation toward zero). -/
def pyInt (q : ℚ) : ℤ :=
  if 0 ≤ q then ⌊q⌋ else -⌊-q⌋

/-- Membership test of the per-tick pending snapshot
(`submission_time ≤ now and status == PENDING`). -/
def isPendingAt (now : ℚ) (t : Task) : Bool :=
  decide (t.submission_time ≤ now) && decide (t.status = .pending)

/-- Indices of the pending snapshot in the sorted workload list. -/
def pendingIdxs (tasks : List Task) (now : ℚ) : List ℕ :=
  (List.range tasks.length).filter fun i => isPendingAt now (tasks.getD i default)

/-- Indices of the running snapshot in the sorted workload list. -/
def runningIdxs (tasks : List Task) : List ℕ :=
  (List.range tasks.length).filter fun i =>
    decide ((tasks.getD i default).status = .running)

/-- The starvation sweep: every task of the pending snapshot that has
waited longer than the threshold is marked starved. -/
def sweepPhase (now : ℚ) (thr : Option ℚ) (tasks : List Task) : List Task :=
  tasks.map fun t =>
    if isPendingAt now t && gtThr (now - t.submission_time) thr then t.markStarved
    else t

/-- Application of one returned placement: start the first task of the
pending snapshot whose id matches (`next(...)`), unconditionally. -/
def applyOne (now : ℚ) (pIdx : List ℕ) (tasks : List Task)
    (entry : String × List String) : List Task :=
  match pIdx.find? (fun i => (tasks.getD i default).task_id == entry.1) with
  | some i => tasks.set i ((tasks.getD i default).start now entry.2)
  | none => tasks

/-- Application of the whole placement map, in insertion order. -/
def applyPhase (now : ℚ) (allocs : Placements) (pIdx : List ℕ)
    (tasks : List Task) : List Task :=
  allocs.foldl (applyOne now pIdx) tasks

/-- Completion handling for one task of the running snapshot: if its
elapsed time has reached its penalty-adjusted duration, it is completed
and its GPUs are released through `scheduler.deallocate`. -/
def completionStep (cfg : SimCfg) (now : ℚ) (st : List Task × Cluster)
    (i : ℕ) : List Task × Cluster :=
  let t := st.1.getD i default
  match t.start_time with
  | none => st
  | some s =>
    if t.allocated_gpus.isEmpty then st
    else
      let placementPenalty := st.2.calculate_penalty t.allocated_gpus
      let sharingPenalty := getTaskSharingPenalty cfg st.2 t
      let adjusted := t.estimated_duration * placementPenalty * sharingPenalty
      if adjusted ≤ now - s then
        (st.1.set i (t.complete now), schedDeallocate st.2 t)
      else st

/-- Completion handling for the running snapshot. -/
def completionPhase (cfg : SimCfg) (now : ℚ) (rIdx : List ℕ)
    (tasks : List Task) (c : Cluster) : List Task × Cluster :=
  rIdx.foldl (completionStep cfg now) (tasks, c)

/-- GPU busy-time accounting: every occupied GPU accumulates one step. -/
def busyPhase (c : Cluster) (dt : ℚ) : Cluster :=
  { c with racks := c.racks.map fun r =>
      { r with gpus := r.gpus.map fun g =>
          if g.running_tasks.isEmpty then g else g.addTime dt } }

/-- One iteration of the main loop of `Simulator.run`, at virtual time
`now`: pending and running snapshots, starvation sweep, scheduling,
placement application, completion handling, busy accounting, then the
timeline-cadence test — which divides by `int(timeline_interval)` and is
the loop's one failure point (`none` = `ZeroDivisionError`).  Returns the
new task list, the new cluster and the all-done flag. -/
def simStep (cfg : SimCfg) (sched : SchedFn) (now : ℚ) (tasks : List Task)
    (c : Cluster) : Option (List Task × Cluster × Bool) :=
  let pIdx := pendingIdxs tasks now
  let rIdx := runningIdxs tasks
  let ts1 := sweepPhase now cfg.starvation_threshold tasks
  let sr := sched c (pIdx.map fun i => ts1.getD i default) now
  let ts2 := applyPhase now sr.1 pIdx ts1
  let cr := completionPhase cfg now rIdx ts2 sr.2
  let cl3 := busyPhase cr.2 cfg.time_step
  if pyInt cfg.timeline_interval = 0 then none
  else
    some (cr.1, cl3,
      cr.1.all fun t => decide (t.status = .completed) || decide (t.status = .starved))

/-- Exit bookkeeping of `Simulator.run`: any task still pending is marked
starved. -/
def finalSweep (tasks : List Task) : List Task :=
  tasks.map fun t => if t.status = .pending then t.markStarved else t

/-- Outcome of a simulator run (the exception raised by a zero
`int(timeline_interval)` aborts the run, skipping the exit bookkeeping). -/
inductive RunResult where
  | finished (tasks : List Task) (c : Cluster) (time : ℚ)
  | outOfFuel
  | divByZero
deriving DecidableEq

/-- The main loop of `Simulator.run`, with explicit fuel (the Python loop
need not terminate, e.g. for an infinite `max_time`). -/
def simLoop (cfg : SimCfg) (sched : SchedFn) (maxTime : ℚ) :
    ℕ → ℚ → List Task → Cluster → RunResult
  | 0, _, _, _ => .outOfFuel
  | fuel + 1, now, tasks, c =>
    if now < maxTime then
      match simStep cfg sched now tasks c with
      | none => .divByZero
      | some (ts, cl, allDone) =>
        if allDone then .finished (finalSweep ts) cl now
        else simLoop cfg sched maxTime fuel (now + cfg.time_step) ts cl
    else .finished (finalSweep tasks) c now

/-- Sorted key extraction used by `Simulator.run`
(`sorted(tasks, key=lambda t: t.submission_time)`, a stable sort). -/
def sortBySubmission (tasks : List Task) : List Task :=
  sortByKey Task.submission_time tasks

/-- The entry point `Simulator.run`. -/
def runSim (cfg : SimCfg) (sched : SchedFn) (maxTime : ℚ) (fuel : ℕ)
    (tasks : List Task) (c : Cluster) : RunResult :=
  simLoop cfg sched maxTime fuel 0 (sortBySubmission tasks) c

/-- Task statuses at exit, when the run finished. -/
def resultStatuses : RunResult → Option (List TStatus)
  | .finished ts _ _ => some (ts.map Task.status)
  | _ => none

/-- All placement GPUs in one rack: every id of `S` resolves to a GPU of
the same rack. -/
def OneRack (c : Cluster) (S : List String) : Prop :=
  ∃ r, ∀ id ∈ S, (c.getGpu id).map GPU.rack_id = some r

/-! ## Helper lemmas -/

theorem sum_map_eq_zero_iff {α : Type} (f : α → ℚ) (l : List α)
    (hpos : ∀ x ∈ l, 0 < f x) : (l.map f).sum = 0 ↔ l = [] := by
  cases l with
  | nil => simp
  | cons a l =>
    simp only [List.map_cons, List.sum_cons, List.cons_ne_nil, iff_false]
    have ha : 0 < f a := hpos a (by simp)
    have hrest : 0 ≤ (l.map f).sum := by
      apply List.sum_nonneg
      intro x hx
      obtain ⟨y, hy, rfl⟩ := List.mem_map.mp hx
      exact (hpos y (by simp [hy])).le
    intro h
    linarith

theorem sum_map_nonneg {α : Type} (f : α → ℚ) (l : List α)
    (hpos : ∀ x ∈ l, 0 < f x) : 0 ≤ (l.map f).sum := by
  apply List.sum_nonneg
  intro x hx
  obtain ⟨y, hy, rfl⟩ := List.mem_map.mp hx
  exact (hpos y hy).le

theorem double_clamped_sub_iff (u m : ℚ) (hu : 0 ≤ u) :
    max 0 (max 0 (u - m) - m) = max 0 (u - m) ↔ m = 0 ∨ u ≤ m := by
  constructor
  · intro h
    by_contra hc
    push_neg at hc
    obtain ⟨hm, hum⟩ := hc
    have h1 : max 0 (u - m) = u - m := max_eq_right (by linarith)
    rw [h1] at h
    rcases le_or_lt (u - m - m) 0 with h2 | h2
    · rw [max_eq_left h2] at h
      linarith
    · rw [max_eq_right h2.le] at h
      exact hm (by linarith)
  · rintro (rfl | h)
    · simp
    · have h1 : max 0 (u - m) = 0 := max_eq_left (by linarith)
      rw [h1]
      exact max_eq_left (by linarith)

theorem nodup_all_eq {α : Type} (l : List α) (r : α) (hne : l ≠ [])
    (hnd : l.Nodup) (hall : ∀ x ∈ l, x = r) : l = [r] := by
  match l with
  | [] => exact absurd rfl hne
  | [x] => rw [hall x (by simp)]
  | x :: y :: l =>
    exfalso
    have hx := hall x (by simp)
    have hy := hall y (by simp)
    subst hx
    rw [List.nodup_cons] at hnd
    exact hnd.1 (by simp [hy])

/-! ## Claim C4 — idempotence of `deallocate` -/

/-- Claim C4, refuted as stated: on a GPU with 10 GB reserved and two
resident jobs, releasing job `a` (4 GB) twice leaves 2 GB reserved, while
a single release leaves 6 GB — the second call subtracts the memory
again. -/
theorem C4_deallocate_not_idempotent :
    (GPU.deallocate (GPU.deallocate
        { gpu_id := "g", rack_id := "r", total_memory := 80,
          used_memory := 10, running_tasks := ["a", "b"] } "a" 4) "a" 4).used_memory = 2 ∧
    (GPU.deallocate
        { gpu_id := "g", rack_id := "r", total_memory := 80,
          used_memory := 10, running_tasks := ["a", "b"] } "a" 4).used_memory = 6 ∧
    GPU.deallocate (GPU.deallocate
        { gpu_id := "g", rack_id := "r", total_memory := 80,
          used_memory := 10, running_tasks := ["a", "b"] } "a" 4) "a" 4 ≠
      GPU.deallocate
        { gpu_id := "g", rack_id := "r", total_memory := 80,
          used_memory := 10, running_tasks := ["a", "b"] } "a" 4 := by
  refine ⟨by norm_num [GPU.deallocate], by norm_num [GPU.deallocate], ?_⟩
  decide

/-- Claim C4 as amended: on a GPU state with non-negative reserved memory
whose occupancy holds the job id at most once, a double `deallocate`
equals a single one exactly when the released memory is zero or at least
the whole reserved amount (the occupancy component is always idempotent;
the memory component is decremented again, clamped at zero). -/
theorem C4_deallocate_twice_iff (g : GPU) (tid : String) (m : ℚ)
    (hcount : g.running_tasks.count tid ≤ 1) (hu : 0 ≤ g.used_memory) :
    GPU.deallocate (GPU.deallocate g tid m) tid m = GPU.deallocate g tid m ↔
      m = 0 ∨ g.used_memory ≤ m := by
  have herase : (g.running_tasks.erase tid).erase tid = g.running_tasks.erase tid := by
    apply List.erase_of_not_mem
    intro hmem
    have := List.count_erase_self tid g.running_tasks
    have hpos := List.count_pos_iff.mpr hmem
    omega
  constructor
  · intro h
    have hmemeq : max 0 (max 0 (g.used_memory - m) - m) = max 0 (g.used_memory - m) :=
      congrArg GPU.used_memory h
    exact (double_clamped_sub_iff g.used_memory m hu).mp hmemeq
  · intro h
    have hmemeq := (double_clamped_sub_iff g.used_memory m hu).mpr h
    simp only [GPU.deallocate]
    rw [herase, hmemeq]

/-- Witness for C4's amended theorem at a concrete input: releasing the
whole reserved amount is idempotent. -/
theorem C4_witness :
    GPU.deallocate (GPU.deallocate
        { gpu_id := "g", rack_id := "r", total_memory := 80,
          used_memory := 5, running_tasks := ["a"] } "a" 5) "a" 5 =
      GPU.deallocate
        { gpu_id := "g", rack_id := "r", total_memory := 80,
          used_memory := 5, running_tasks := ["a"] } "a" 5 :=
  (C4_deallocate_twice_iff
    { gpu_id := "g", rack_id := "r", total_memory := 80,
      used_memory := 5, running_tasks := ["a"] } "a" 5
    (by decide) (by norm_num)).mpr (Or.inr (by norm_num))

/-! ## Claim C5 — GPU state invariants under operation sequences -/

/-- Claim C5, refuted as stated: from a fresh 80 GB GPU, the operation
sequence `allocate("a", 5); deallocate("b", 5)` (a release for a job that
never allocated) leaves zero reserved memory with a non-empty occupancy
list, violating `reserved == 0 ⇔ occupancy empty`. -/
theorem C5_invariant_not_preserved :
    (applyOps (freshGPU "g" "r" 80) [.alloc "a" 5, .dealloc "b" 5]).used_memory = 0 ∧
    (applyOps (freshGPU "g" "r" 80) [.alloc "a" 5, .dealloc "b" 5]).running_tasks = ["a"] := by
  constructor
  · decide
  · decide

theorem gpuInv_alloc (g : GPU) (f : String → ℚ) (tid : String) (m : ℚ)
    (hinv : GpuInv g f) (hnot : tid ∉ g.running_tasks) (hm : 0 < m) :
    GpuInv (g.allocate tid m).1 (Function.update f tid m) := by
  obtain ⟨hnd, hpos, hsum, hcap⟩ := hinv
  unfold GPU.allocate
  by_cases hca : g.can_allocate m = true
  · simp only [hca, if_true, if_neg hnot]
    refine ⟨?_, ?_, ?_, ?_⟩
    · rw [List.nodup_append]
      refine ⟨hnd, List.nodup_singleton _, ?_⟩
      intro x hx hx'
      apply hnot
      have hxe : x = tid := by simpa using hx'
      rw [← hxe]
      exact hx
    · intro x hx
      rcases List.mem_append.mp hx with hx | hx
      · have hne : x ≠ tid := by
          intro h
          apply hnot
          rw [← h]
          exact hx
        rw [Function.update_noteq hne]
        exact hpos x hx
      · have hx : x = tid := by simpa using hx
        rw [hx, Function.update_same]
        exact hm
    · have hmap : g.running_tasks.map (Function.update f tid m) = g.running_tasks.map f := by
        apply List.map_congr_left
        intro x hx
        refine Function.update_noteq ?_ m f
        intro h
        apply hnot
        rw [← h]
        exact hx
      simp [hmap, hsum]
    · simpa [GPU.can_allocate] using hca
  · simp only [Bool.not_eq_true] at hca
    simp only [hca, Bool.false_eq_true, if_false]
    refine ⟨hnd, ?_, ?_, hcap⟩
    · intro x hx
      refine Eq.mpr ?_ (hpos x hx)
      rw [Function.update_noteq]
      intro h
      apply hnot
      rw [← h]
      exact hx
    · have hmap : g.running_tasks.map (Function.update f tid m) = g.running_tasks.map f := by
        apply List.map_congr_left
        intro x hx
        refine Function.update_noteq ?_ m f
        intro h
        apply hnot
        rw [← h]
        exact hx
      rw [hmap]
      exact hsum

theorem gpuInv_dealloc (g : GPU) (f : String → ℚ) (tid : String)
    (hinv : GpuInv g f) (hmem : tid ∈ g.running_tasks) :
    GpuInv (g.deallocate tid (f tid)) f := by
  obtain ⟨hnd, hpos, hsum, hcap⟩ := hinv
  have hperm : List.Perm g.running_tasks (tid :: g.running_tasks.erase tid) :=
    List.perm_cons_erase hmem
  have hsum' : (g.running_tasks.map f).sum =
      f tid + ((g.running_tasks.erase tid).map f).sum := by
    have := (hperm.map f).sum_eq
    simpa using this
  have hrest : 0 ≤ ((g.running_tasks.erase tid).map f).sum := by
    apply sum_map_nonneg
    intro x hx
    exact hpos x (List.mem_of_mem_erase hx)
  have hused : max 0 (g.used_memory - f tid) = ((g.running_tasks.erase tid).map f).sum := by
    rw [hsum, hsum']
    rw [max_eq_right (by linarith)]
    ring
  refine ⟨hnd.erase tid, ?_, ?_, ?_⟩
  · intro x hx
    exact hpos x (List.mem_of_mem_erase hx)
  · exact hused
  · unfold GPU.deallocate
    simp only
    have htid : 0 < f tid := hpos tid hmem
    rw [hused]
    calc ((g.running_tasks.erase tid).map f).sum
        = (g.running_tasks.map f).sum - f tid := by rw [hsum']; ring
      _ ≤ g.total_memory := by rw [← hsum]; linarith

theorem gpuInv_tick (g : GPU) (f : String → ℚ) (dt : ℚ) (hinv : GpuInv g f) :
    GpuInv (g.addTime dt) f := by
  unfold GPU.addTime
  by_cases h : g.running_tasks.isEmpty
  · simpa [h] using hinv
  · obtain ⟨hnd, hpos, hsum, hcap⟩ := hinv
    simp only [h, Bool.false_eq_true, if_false]
    exact ⟨hnd, hpos, hsum, hcap⟩

theorem reach_gpuInv (g : GPU) (f : String → ℚ) (g' : GPU) (f' : String → ℚ)
    (h : Reach g f g' f') (hinv : GpuInv g f) : GpuInv g' f' := by
  induction h with
  | refl g f => exact hinv
  | alloc g f tid m g' f' hnot hm _ ih => exact ih (gpuInv_alloc g f tid m hinv hnot hm)
  | dealloc g f tid g' f' hmem _ ih => exact ih (gpuInv_dealloc g f tid hinv hmem)
  | tick g f dt g' f' _ ih => exact ih (gpuInv_tick g f dt hinv)

/-- Claim C5 as amended: a matched operation sequence from a fresh GPU of
non-negative capacity — each `allocate` targets a job not already resident
with positive memory, each `deallocate` releases a resident job with
exactly the memory it reserved, `add_time` unrestricted — preserves both
`reserved_memory ≤ capacity` and `reserved_memory == 0 ⇔ occupancy empty`.
Unmatched sequences break the biconditional
(`C5_invariant_not_preserved`). -/
theorem C5_matched_sequences_invariant (id rid : String) (cap : ℚ)
    (f0 f' : String → ℚ) (g' : GPU) (hcap : 0 ≤ cap)
    (h : Reach (freshGPU id rid cap) f0 g' f') :
    g'.used_memory ≤ g'.total_memory ∧
      (g'.used_memory = 0 ↔ g'.running_tasks = []) := by
  have hinv0 : GpuInv (freshGPU id rid cap) f0 := by
    refine ⟨List.nodup_nil, ?_, ?_, ?_⟩
    · intro x hx
      simp [freshGPU] at hx
    · simp [freshGPU]
    · simpa [freshGPU] using hcap
  obtain ⟨hnd, hpos, hsum, hcap'⟩ := reach_gpuInv _ _ _ _ h hinv0
  refine ⟨hcap', ?_⟩
  rw [hsum]
  exact sum_map_eq_zero_iff f' g'.running_tasks hpos

/-- Witness for C5's amended theorem: the matched sequence
`allocate("a", 5); deallocate("a", 5)` on a fresh 80 GB GPU satisfies both
invariants at its end state. -/
theorem C5_witness :
    (GPU.deallocate ((freshGPU "g" "r" 80).allocate "a" 5).1 "a" 5).used_memory ≤
      (GPU.deallocate ((freshGPU "g" "r" 80).allocate "a" 5).1 "a" 5).total_memory ∧
    ((GPU.deallocate ((freshGPU "g" "r" 80).allocate "a" 5).1 "a" 5).used_memory = 0 ↔
      (GPU.deallocate ((freshGPU "g" "r" 80).allocate "a" 5).1 "a" 5).running_tasks = []) := by
  have hstep : Reach (freshGPU "g" "r" 80) (fun _ => 0)
      (GPU.deallocate ((freshGPU "g" "r" 80).allocate "a" 5).1 "a" 5)
      (Function.update (fun _ => 0) "a" 5) := by
    apply Reach.alloc _ _ "a" 5 _ _ (by decide) (by norm_num)
    have h5 : (Function.update (fun _ => (0:ℚ)) "a" 5) "a" = 5 := Function.update_same ..
    have := Reach.dealloc ((freshGPU "g" "r" 80).allocate "a" 5).1
      (Function.update (fun _ => (0:ℚ)) "a" 5) "a"
      (GPU.deallocate ((freshGPU "g" "r" 80).allocate "a" 5).1 "a" 5)
      (Function.update (fun _ => (0:ℚ)) "a" 5)
      (by decide) ?_
    · exact this
    · rw [h5]
      exact Reach.refl _ _
  exact C5_matched_sequences_invariant "g" "r" 80 (fun _ => 0)
    (Function.update (fun _ => 0) "a" 5)
    (GPU.deallocate ((freshGPU "g" "r" 80).allocate "a" 5).1 "a" 5)
    (by norm_num) hstep

/-! ## Claim C3 — the penalty function -/

theorem dedup_racks_length_one_iff (c : Cluster) (S : List String)
    (hS : ∀ id ∈ S, (c.getGpu id).isSome) (hne : S ≠ []) :
    ((S.filterMap fun id => (c.getGpu id).map GPU.rack_id).dedup.length = 1) ↔
      OneRack c S := by
  constructor
  · intro h
    obtain ⟨r, hr⟩ := List.length_eq_one.mp h
    refine ⟨r, ?_⟩
    intro id hid
    obtain ⟨g, hg⟩ := Option.isSome_iff_exists.mp (hS id hid)
    have hmem : g.rack_id ∈
        (S.filterMap fun id => (c.getGpu id).map GPU.rack_id) := by
      refine List.mem_filterMap.mpr ⟨id, hid, ?_⟩
      rw [hg]
      rfl
    have : g.rack_id ∈
        (S.filterMap fun id => (c.getGpu id).map GPU.rack_id).dedup :=
      List.mem_dedup.mpr hmem
    rw [hr] at this
    have : g.rack_id = r := by simpa using this
    rw [hg]
    simp [this]
  · rintro ⟨r, hr⟩
    have hall : ∀ x ∈ (S.filterMap fun id => (c.getGpu id).map GPU.rack_id), x = r := by
      intro x hx
      obtain ⟨id, hid, heq⟩ := List.mem_filterMap.mp hx
      have := hr id hid
      rw [this] at heq
      exact (Option.some.inj heq).symm
    have hrmem : r ∈ (S.filterMap fun id => (c.getGpu id).map GPU.rack_id) := by
      obtain ⟨a, rest, rfl⟩ : ∃ a rest, S = a :: rest := by
        cases S with
        | nil => exact absurd rfl hne
        | cons a rest => exact ⟨a, rest, rfl⟩
      refine List.mem_filterMap.mpr ⟨a, by simp, hr a (by simp)⟩
    have hdd : (S.filterMap fun id => (c.getGpu id).map GPU.rack_id).dedup = [r] := by
      apply nodup_all_eq
      · intro hempty
        have hrd : r ∈ (S.filterMap fun id => (c.getGpu id).map GPU.rack_id).dedup :=
          List.mem_dedup.mpr hrmem
        rw [hempty] at hrd
        simp at hrd
      · exact List.nodup_dedup _
      · intro x hx
        exact hall x (List.mem_dedup.mp hx)
    rw [hdd]
    rfl

/-- Claim C3 as amended: for every cluster with
`1 ≤ intra_rack_penalty ≤ inter_rack_penalty` and every placement list of
that cluster's GPU ids, `calculate_penalty` is in `{1, intra, inter}`; it
is `1` when `|S| ≤ 1`, `intra` when `|S| ≥ 2` with all GPUs in one rack,
and `inter` when `|S| ≥ 2` spanning racks; the three "if and only if"
forms of the claim additionally require the strict inequalities
`1 < intra < inter` (they fail for degenerate penalties,
`C3_counterexample`). -/
theorem C3_penalty_characterization (c : Cluster) (S : List String)
    (h1 : 1 ≤ c.intra_rack_penalty)
    (h2 : c.intra_rack_penalty ≤ c.inter_rack_penalty)
    (hS : ∀ id ∈ S, (c.getGpu id).isSome) :
    (c.calculate_penalty S = 1 ∨ c.calculate_penalty S = c.intra_rack_penalty ∨
       c.calculate_penalty S = c.inter_rack_penalty) ∧
    (S.length ≤ 1 → c.calculate_penalty S = 1) ∧
    (2 ≤ S.length → OneRack c S → c.calculate_penalty S = c.intra_rack_penalty) ∧
    (2 ≤ S.length → ¬ OneRack c S → c.calculate_penalty S = c.inter_rack_penalty) ∧
    (1 < c.intra_rack_penalty → c.intra_rack_penalty < c.inter_rack_penalty →
      ((c.calculate_penalty S = 1 ↔ S.length ≤ 1) ∧
       (c.calculate_penalty S = c.intra_rack_penalty ↔ 2 ≤ S.length ∧ OneRack c S) ∧
       (c.calculate_penalty S = c.inter_rack_penalty ↔ 2 ≤ S.length ∧ ¬ OneRack c S))) := by
  by_cases hlen : S.length ≤ 1
  · have hp : c.calculate_penalty S = 1 := by
      simp [Cluster.calculate_penalty, hlen]
    refine ⟨Or.inl hp, fun _ => hp, ?_, ?_, ?_⟩
    · intro h
      omega
    · intro h
      omega
    · intro hsi hii
      refine ⟨by simp [hp, hlen], ?_, ?_⟩
      · rw [hp]
        constructor
        · intro h
          exact absurd h.symm (ne_of_gt hsi)
        · intro ⟨h, _⟩
          omega
      · rw [hp]
        constructor
        · intro h
          exact absurd h.symm (ne_of_gt (lt_trans hsi hii))
        · intro ⟨h, _⟩
          omega
  · have hlen2 : 2 ≤ S.length := by omega
    have hne : S ≠ [] := by
      intro h
      rw [h] at hlen2
      simp at hlen2
    by_cases hone : OneRack c S
    · have hd : ((S.filterMap fun id => (c.getGpu id).map GPU.rack_id).dedup.length = 1) :=
        (dedup_racks_length_one_iff c S hS hne).mpr hone
      have hp : c.calculate_penalty S = c.intra_rack_penalty := by
        simp [Cluster.calculate_penalty, hlen, hd]
      refine ⟨Or.inr (Or.inl hp), fun h => absurd h hlen, fun _ _ => hp,
        fun _ h => absurd hone h, ?_⟩
      intro hsi hii
      refine ⟨?_, ?_, ?_⟩
      · rw [hp]
        constructor
        · intro h
          exact absurd h (ne_of_gt hsi)
        · intro h
          exact absurd h hlen
      · simp [hp, hlen2, hone]
      · rw [hp]
        constructor
        · intro h
          exact absurd h (ne_of_lt hii)
        · intro ⟨_, h⟩
          exact absurd hone h
    · have hd : ¬ ((S.filterMap fun id => (c.getGpu id).map GPU.rack_id).dedup.length = 1) :=
        fun h => hone ((dedup_racks_length_one_iff c S hS hne).mp h)
      have hp : c.calculate_penalty S = c.inter_rack_penalty := by
        simp [Cluster.calculate_penalty, hlen, hd]
      refine ⟨Or.inr (Or.inr hp), fun h => absurd h hlen, fun _ h => absurd h hone,
        fun _ _ => hp, ?_⟩
      intro hsi hii
      refine ⟨?_, ?_, ?_⟩
      · rw [hp]
        constructor
        · intro h
          exact absurd h (ne_of_gt (lt_trans hsi hii))
        · intro h
          exact absurd h hlen
      · rw [hp]
        constructor
        · intro h
          exact absurd h.symm (ne_of_lt hii)
        · intro ⟨_, h⟩
          exact absurd h hone
      · simp [hp, hlen2, hone]

/-- Claim C3, refuted as stated: with the degenerate (but per the claim's
own precondition admissible) `intra_rack_penalty = 1.0`, a two-GPU
single-rack placement has penalty `1.0` while `|S| = 2`, so
"`penalty = 1.0` iff `|S| ≤ 1`" fails. -/
theorem C3_counterexample :
    (∀ id ∈ (["rack-0-0", "rack-0-1"] : List String),
        ((mkCluster 1 2 80 1 (3/2)).getGpu id).isSome) ∧
    (1 : ℚ) ≤ (mkCluster 1 2 80 1 (3/2)).intra_rack_penalty ∧
    (mkCluster 1 2 80 1 (3/2)).intra_rack_penalty ≤
      (mkCluster 1 2 80 1 (3/2)).inter_rack_penalty ∧
    (mkCluster 1 2 80 1 (3/2)).calculate_penalty ["rack-0-0", "rack-0-1"] = 1 ∧
    ¬ ((["rack-0-0", "rack-0-1"] : List String).length ≤ 1) := by
  refine ⟨by decide, by decide, by decide, by decide, by decide⟩

/-- Witness for C3's amended theorem at a concrete input: a two-GPU
single-rack placement on a `1.4`/`2.1` cluster gets the intra-rack
penalty. -/
theorem C3_witness :
    (mkCluster 2 2 80 (7/5) (21/10)).calculate_penalty ["rack-0-0", "rack-0-1"] =
      (mkCluster 2 2 80 (7/5) (21/10)).intra_rack_penalty :=
  (C3_penalty_characterization (mkCluster 2 2 80 (7/5) (21/10))
      ["rack-0-0", "rack-0-1"] (by decide) (by decide) (by decide)).2.2.1
    (by decide) ⟨"rack-0", by decide⟩

/-! ## Claim C8 — the sharing factor computation -/

theorem getGpuSharingPenalty_eq_spec (cfg : SimCfg) (k : ℕ) (hk : 1 ≤ k) :
    getGpuSharingPenalty cfg k = specClampE cfg (specLookupE cfg k) := by
  unfold getGpuSharingPenalty specClampE specLookupE
  have htc : max 1 k = k := Nat.max_eq_right hk
  rw [htc]
  rcases hfn : cfg.sharing_penalty_fn with _ | fn
  · simp only
    rcases hlk : lookupQ cfg.sharing_penalty_map k with _ | v
    · simp only
      by_cases hmap : cfg.sharing_penalty_map.isEmpty
      · have hnil : cfg.sharing_penalty_map = [] := List.isEmpty_iff.mp hmap
        rw [if_pos hmap, hnil]
        simp [lookupQ]
      · rw [if_neg hmap]
    · rfl
  · rfl

theorem filterMap_penalties_eq_map (cfg : SimCfg) (c : Cluster) :
    ∀ l : List String,
      (∀ id ∈ l, ∃ g, c.getGpu id = some g ∧ g.running_tasks ≠ []) →
      (l.filterMap fun id =>
          (c.getGpu id).map fun g => getGpuSharingPenalty cfg g.running_tasks.length) =
        l.map fun id => specClampE cfg (specLookupE cfg (specOccupancy c id)) := by
  intro l
  induction l with
  | nil => intro _; rfl
  | cons a l ih =>
    intro h
    obtain ⟨g, hg, hgne⟩ := h a (by simp)
    have hk : 1 ≤ g.running_tasks.length := by
      cases hrt : g.running_tasks with
      | nil => exact absurd hrt hgne
      | cons x xs => simp [hrt]
    have hocc : specOccupancy c a = g.running_tasks.length := by
      simp [specOccupancy, hg]
    have hrec := ih fun id hid => h id (by simp [hid])
    rw [List.map_cons]
    simp only [List.filterMap_cons, hg, Option.map_some']
    rw [getGpuSharingPenalty_eq_spec cfg g.running_tasks.length hk, hocc, hrec]

/-- Claim C8, confirmed: for a running job whose placement GPUs all
resolve and are occupied, the simulator's sharing factor equals the
specification's description — per-GPU efficiencies looked up in the map
(falling back to the largest key), or the configured function instead,
clamped to `[floor, 1]`, aggregated by `min` for the `"min"` setting (the
default) and by the arithmetic mean for `"average"`. -/
theorem C8_sharing_factor (cfg : SimCfg) (c : Cluster) (t : Task)
    (hne : t.allocated_gpus ≠ [])
    (hres : ∀ id ∈ t.allocated_gpus, ∃ g, c.getGpu id = some g ∧ g.running_tasks ≠ [])
    (hagg : cfg.sharing_penalty_aggregation = "min" ∨
      cfg.sharing_penalty_aggregation = "average") :
    getTaskSharingPenalty cfg c t = specSharingFactor cfg c t := by
  unfold getTaskSharingPenalty specSharingFactor
  have hie : t.allocated_gpus.isEmpty = false := by
    cases h : t.allocated_gpus with
    | nil => exact absurd h hne
    | cons a l => rfl
  rw [hie]
  simp only [Bool.false_eq_true, if_false]
  rw [filterMap_penalties_eq_map cfg c t.allocated_gpus hres]
  rcases hal : t.allocated_gpus with _ | ⟨a, l⟩
  · exact absurd hal hne
  · simp only [List.map_cons]
    rcases hagg with h | h
    · rw [h]
      rw [if_neg (by decide : ¬ (pyLower (pyOrMin "min") = "average"))]
      rw [if_neg (by decide : ¬ (("min" : String) = "average"))]
    · rw [h]
      rw [if_pos (by decide : pyLower (pyOrMin "average") = "average")]
      rw [if_pos (rfl : ("average" : String) = "average")]

/-- Witness for C8 at a concrete input: one occupied GPU, default
configuration — both computations give the `2`-tenant efficiency `0.9`. -/
theorem C8_witness :
    getTaskSharingPenalty {} (clusterAllocGpu (mkCluster 1 2 80 (7/5) (21/10)) "rack-0-0" "x" 10)
        { task_id := "x", num_gpus := 1, memory_per_gpu := 10, submission_time := 0,
          estimated_duration := 5, allocated_gpus := ["rack-0-0"] } =
      specSharingFactor {} (clusterAllocGpu (mkCluster 1 2 80 (7/5) (21/10)) "rack-0-0" "x" 10)
        { task_id := "x", num_gpus := 1, memory_per_gpu := 10, submission_time := 0,
          estimated_duration := 5, allocated_gpus := ["rack-0-0"] } := by
  apply C8_sharing_factor
  · decide
  · intro id hid
    have hid' : id = "rack-0-0" := by simpa using hid
    subst hid'
    exact ⟨(freshGPU "rack-0-0" "rack-0" 80).allocate "x" 10 |>.1, by decide, by decide⟩
  · exact Or.inl rfl

/-! ## Claim C6 — Min-GPU-Time patience decision -/

theorem getGpu_of_mem (c : Cluster) (g : GPU) (huniq : c.uniqueIds)
    (hg : g ∈ c.allGpus) : c.getGpu g.gpu_id = some g := by
  unfold Cluster.getGpu
  have hsome : (c.allGpus.find? fun x => x.gpu_id == g.gpu_id).isSome := by
    rw [List.find?_isSome]
    exact ⟨g, hg, by simp⟩
  obtain ⟨g', hfind⟩ := Option.isSome_iff_exists.mp hsome
  have hmem' : g' ∈ c.allGpus := List.mem_of_find?_eq_some hfind
  have hid : g'.gpu_id = g.gpu_id := by
    have := List.find?_some hfind
    simpa using this
  have : g' = g := List.inj_on_of_nodup_map huniq hmem' hg hid
  rw [hfind, this]

theorem mem_allGpus_of_mem_rack (c : Cluster) (r : Rack) (g : GPU)
    (hr : r ∈ c.racks) (hg : g ∈ r.gpus) : g ∈ c.allGpus := by
  unfold Cluster.allGpus
  rw [List.mem_flatten]
  exact ⟨r.gpus, List.mem_map_of_mem Rack.gpus hr, hg⟩

theorem canPlace_of_good (c : Cluster) (t : Task) (cand : List String)
    (hlen : cand.length = t.num_gpus)
    (hmem : ∀ id ∈ cand, ∃ g, c.getGpu id = some g ∧
      g.can_allocate t.memory_per_gpu = true) :
    canPlace c t cand = true := by
  unfold canPlace
  rw [Bool.and_eq_true]
  constructor
  · exact decide_eq_true hlen
  · rw [List.all_eq_true]
    intro id hid
    obtain ⟨g, hg, hcan⟩ := hmem id hid
    rw [hg]
    exact hcan

theorem schedAllocate_of_good (c : Cluster) (t : Task) (cand : List String)
    (hlen : cand.length = t.num_gpus)
    (hmem : ∀ id ∈ cand, ∃ g, c.getGpu id = some g ∧
      g.can_allocate t.memory_per_gpu = true) :
    schedAllocate c t cand =
      (cand.foldl (fun cl id => clusterAllocGpu cl id t.task_id t.memory_per_gpu) c,
        true) := by
  unfold schedAllocate
  rw [if_pos (canPlace_of_good c t cand hlen hmem)]

theorem mgtRackCandidate_good (c : Cluster) (used : List String) (t : Task)
    (r : Rack) (cand : List String) (pen : ℚ)
    (h : mgtRackCandidate c used t r = some (cand, pen)) :
    cand.length = t.num_gpus ∧
      ∀ id ∈ cand, ∃ g, c.getGpu id = some g ∧
        g.can_allocate t.memory_per_gpu = true := by
  unfold mgtRackCandidate at h
  by_cases hc : t.num_gpus ≤
      (((r.availableGpus.map GPU.gpu_id).filter fun id => decide (id ∉ used)).filter
        (fun id => match c.getGpu id with
          | some g => g.can_allocate t.memory_per_gpu
          | none => false)).length
  · rw [if_pos hc] at h
    obtain ⟨hcand, _⟩ := Prod.mk.injEq .. ▸ Option.some.inj h
    constructor
    · rw [← hcand, List.length_take]
      omega
    · intro id hid
      rw [← hcand] at hid
      have hid' := List.mem_of_mem_take hid
      have hpred := List.of_mem_filter hid'
      rcases hgu : c.getGpu id with _ | g
      · rw [hgu] at hpred
        simp at hpred
      · refine ⟨g, rfl, ?_⟩
        rw [hgu] at hpred
        exact hpred
  · rw [if_neg hc] at h
    exact absurd h (by simp)

theorem mgtBest_good (c : Cluster) (used : List String) (t : Task)
    (cand : List String) (pen : ℚ) (huniq : c.uniqueIds)
    (h : mgtBest c used t = some (cand, pen)) :
    cand.length = t.num_gpus ∧
      ∀ id ∈ cand, ∃ g, c.getGpu id = some g ∧
        g.can_allocate t.memory_per_gpu = true := by
  unfold mgtBest at h
  set step := fun (acc : Option (List String × ℚ)) (r : Rack) =>
    match mgtRackCandidate c used t r with
    | none => acc
    | some (cand, pen) =>
      match acc with
      | none => some (cand, pen)
      | some (_, p) => if pen < p then some (cand, pen) else acc with hstep
  have hfold : ∀ (racks : List Rack) (acc : Option (List String × ℚ)),
      (∀ cand' pen', acc = some (cand', pen') → cand'.length = t.num_gpus ∧
        ∀ id ∈ cand', ∃ g, c.getGpu id = some g ∧
          g.can_allocate t.memory_per_gpu = true) →
      ∀ cand' pen', racks.foldl step acc = some (cand', pen') →
        cand'.length = t.num_gpus ∧
          ∀ id ∈ cand', ∃ g, c.getGpu id = some g ∧
            g.can_allocate t.memory_per_gpu = true := by
    have hstep_good : ∀ (acc : Option (List String × ℚ)) (r : Rack),
        (∀ cand' pen', acc = some (cand', pen') → cand'.length = t.num_gpus ∧
          ∀ id ∈ cand', ∃ g, c.getGpu id = some g ∧
            g.can_allocate t.memory_per_gpu = true) →
        ∀ cand' pen', step acc r = some (cand', pen') → cand'.length = t.num_gpus ∧
          ∀ id ∈ cand', ∃ g, c.getGpu id = some g ∧
            g.can_allocate t.memory_per_gpu = true := by
      intro acc r hacc cand2 pen2 hs
      rcases hrc : mgtRackCandidate c used t r with _ | ⟨rcand, rpen⟩
      · simp only [hstep, hrc] at hs
        exact hacc cand2 pen2 hs
      · rcases hacc2 : acc with _ | ⟨acand, apen⟩
        · simp only [hstep, hrc, hacc2, Option.some.injEq, Prod.mk.injEq] at hs
          obtain ⟨h1, _⟩ := hs
          rw [← h1]
          exact mgtRackCandidate_good c used t r rcand rpen hrc
        · by_cases hlt : rpen < apen
          · simp only [hstep, hrc, hacc2, if_pos hlt, Option.some.injEq,
              Prod.mk.injEq] at hs
            obtain ⟨h1, _⟩ := hs
            rw [← h1]
            exact mgtRackCandidate_good c used t r rcand rpen hrc
          · simp only [hstep, hrc, hacc2, if_neg hlt] at hs
            rw [← hacc2] at hs
            exact hacc cand2 pen2 hs
    intro racks
    induction racks with
    | nil => intro acc hacc cand' pen' hout; exact hacc cand' pen' hout
    | cons r rs ih =>
      intro acc hacc cand' pen' hout
      rw [List.foldl_cons] at hout
      exact ih (step acc r) (hstep_good acc r hacc) cand' pen' hout
  rcases hrb : c.racks.foldl step none with _ | b
  · rw [hrb] at h
    simp only at h
    by_cases hgl : t.num_gpus ≤
        (((c.availableGpus.filter fun g => decide (g.gpu_id ∉ used)).filter
          (fun g => g.can_allocate t.memory_per_gpu)).map GPU.gpu_id).length
    · rw [if_pos hgl] at h
      obtain ⟨hcand, _⟩ := Prod.mk.injEq .. ▸ Option.some.inj h
      constructor
      · rw [← hcand, List.length_take]
        omega
      · intro id hid
        rw [← hcand] at hid
        have hid' := List.mem_of_mem_take hid
        obtain ⟨g, hgmem, hgid⟩ := List.mem_map.mp hid'
        have hcan := List.of_mem_filter hgmem
        have hgall : g ∈ c.allGpus := by
          have h1 : g ∈ c.availableGpus.filter fun g => decide (g.gpu_id ∉ used) :=
            List.mem_of_mem_filter hgmem
          have h2 : g ∈ c.availableGpus := List.mem_of_mem_filter h1
          exact List.mem_of_mem_filter h2
        refine ⟨g, ?_, hcan⟩
        rw [← hgid]
        exact getGpu_of_mem c g huniq hgall
    · rw [if_neg hgl] at h
      exact absurd h (by simp)
  · rw [hrb] at h
    simp only at h
    exact hfold c.racks none (by intro _ _ hc; exact absurd hc (by simp)) cand pen
      (hrb.trans (congrArg some (Option.some.inj h)))

/-- Claim C6, confirmed: in a `MinGPUTimeScheduler.schedule` call, when the
search finds a best placement `cand` with penalty `pen` for a pending job
with positive demand, the job is placed in that call if and only if
`pen ≤ patience_threshold` or `now − submission_time > starvation_limit`;
otherwise the placement map is left unchanged. -/
theorem C6_mgt_patience_iff (patience limit now : ℚ) (allocs : Placements)
    (c : Cluster) (t : Task) (cand : List String) (pen : ℚ)
    (huniq : c.uniqueIds) (hp : t.status = .pending) (hn : 1 ≤ t.num_gpus)
    (hb : mgtBest c (placedIds allocs) t = some (cand, pen)) :
    (mgtStep patience limit now (allocs, c) t).1 =
      if pen ≤ patience ∨ now - t.submission_time > limit
      then allocs ++ [(t.task_id, cand)] else allocs := by
  obtain ⟨hlen, hmem⟩ := mgtBest_good c (placedIds allocs) t cand pen huniq hb
  have hne : cand.isEmpty = false := by
    cases hc : cand with
    | nil => rw [hc] at hlen; simp at hlen; omega
    | cons a l => rfl
  by_cases hcond : pen ≤ patience ∨ now - t.submission_time > limit
  · rw [if_pos hcond]
    unfold mgtStep
    simp only [hb]
    rw [if_neg (show ¬(t.status ≠ TStatus.pending) from by simp [hp])]
    simp only [hne, Bool.false_eq_true, if_false]
    rw [if_pos hcond]
    rw [schedAllocate_of_good c t cand hlen hmem]
  · rw [if_neg hcond]
    unfold mgtStep
    simp only [hb]
    rw [if_neg (show ¬(t.status ≠ TStatus.pending) from by simp [hp])]
    simp only [hne, Bool.false_eq_true, if_false]
    rw [if_neg hcond]

/-- Witness for C6 at a concrete input: on a fresh `2×2` cluster with
penalties `1.4`/`2.1`, patience `1.1` and starvation limit `2000`, the
best placement for a 2-GPU job submitted now has penalty `1.4`, so the
decision reduces to the (false) condition and the job is left pending. -/
theorem C6_witness :
    (mgtStep (11/10) 2000 0 ([], mkCluster 2 2 80 (7/5) (21/10))
        { task_id := "t0", num_gpus := 2, memory_per_gpu := 40,
          submission_time := 0, estimated_duration := 100 }).1 =
      if (7/5 : ℚ) ≤ 11/10 ∨ (0 : ℚ) - 0 > 2000
      then [("t0", ["rack-0-0", "rack-0-1"])] else [] :=
  C6_mgt_patience_iff (11/10) 2000 0 [] (mkCluster 2 2 80 (7/5) (21/10))
    { task_id := "t0", num_gpus := 2, memory_per_gpu := 40,
      submission_time := 0, estimated_duration := 100 }
    ["rack-0-0", "rack-0-1"] (7/5) (by decide) rfl (by decide) (by decide)

/-! ## Claim C7 — Pollux-Patient efficiency decision -/

theorem mem_insertByKey {α : Type} (key : α → ℚ) (x : α) (l : List α) (y : α) :
    y ∈ insertByKey key x l ↔ y = x ∨ y ∈ l := by
  induction l with
  | nil => simp [insertByKey]
  | cons z zs ih =>
    unfold insertByKey
    by_cases h : key z ≤ key x
    · rw [if_pos h]
      simp only [List.mem_cons, ih]
      tauto
    · rw [if_neg h]
      simp only [List.mem_cons]

theorem mem_sortByKey_fold {α : Type} (key : α → ℚ) :
    ∀ (l acc : List α) (y : α),
      y ∈ l.foldl (fun a x => insertByKey key x a) acc ↔ y ∈ acc ∨ y ∈ l := by
  intro l
  induction l with
  | nil => simp
  | cons z zs ih =>
    intro acc y
    rw [List.foldl_cons, ih, mem_insertByKey]
    simp only [List.mem_cons]
    tauto

theorem mem_sortByKey {α : Type} (key : α → ℚ) (l : List α) (y : α) :
    y ∈ sortByKey key l ↔ y ∈ l := by
  unfold sortByKey
  rw [mem_sortByKey_fold]
  simp

theorem length_insertByKey {α : Type} (key : α → ℚ) (x : α) (l : List α) :
    (insertByKey key x l).length = l.length + 1 := by
  induction l with
  | nil => rfl
  | cons z zs ih =>
    unfold insertByKey
    by_cases h : key z ≤ key x
    · rw [if_pos h]
      simp [ih]
    · rw [if_neg h]
      simp

theorem length_sortByKey_fold {α : Type} (key : α → ℚ) :
    ∀ (l acc : List α),
      (l.foldl (fun a x => insertByKey key x a) acc).length =
        acc.length + l.length := by
  intro l
  induction l with
  | nil => simp
  | cons z zs ih =>
    intro acc
    rw [List.foldl_cons, ih, length_insertByKey, List.length_cons]
    omega

theorem length_sortByKey {α : Type} (key : α → ℚ) (l : List α) :
    (sortByKey key l).length = l.length := by
  unfold sortByKey
  rw [length_sortByKey_fold]
  simp

theorem polluxAllocate_of_good (c : Cluster) (t : Task) (cand : List String)
    (hmem : ∀ id ∈ cand, ∃ g, c.getGpu id = some g ∧
      g.can_allocate t.memory_per_gpu = true) :
    polluxAllocate c t cand =
      (cand.foldl (fun cl id => clusterAllocGpu cl id t.task_id t.memory_per_gpu) c,
        true) := by
  unfold polluxAllocate
  rw [if_pos]
  unfold polluxCanPlace
  rw [List.all_eq_true]
  intro id hid
  obtain ⟨g, hg, hcan⟩ := hmem id hid
  rw [hg]
  exact hcan

theorem ppRackCandidates_good (c : Cluster) (occupied : List String) (m : ℚ)
    (n : ℕ) (huniq : c.uniqueIds) (hn : 1 ≤ n) :
    ∀ alloc ∈ ppRackCandidates c occupied m n, alloc ≠ [] ∧
      ∀ id ∈ alloc, ∃ g, c.getGpu id = some g ∧ g.can_allocate m = true := by
  intro alloc halloc
  unfold ppRackCandidates at halloc
  obtain ⟨r, hr, heq⟩ := List.mem_filterMap.mp halloc
  by_cases hlen : n ≤ ((r.availableGpus.filter fun g =>
      decide (g.gpu_id ∉ occupied) && g.can_allocate m).map GPU.gpu_id).length
  · rw [if_pos hlen] at heq
    have halloc' := Option.some.inj heq
    constructor
    · have hlt : (((sortByKey (fun id => -(ppSharing c id))
          ((r.availableGpus.filter fun g =>
            decide (g.gpu_id ∉ occupied) && g.can_allocate m).map GPU.gpu_id)).take
              n)).length = n := by
        rw [List.length_take, length_sortByKey]
        omega
      rw [halloc'] at hlt
      intro hnil
      rw [hnil] at hlt
      simp at hlt
      omega
    · intro id hid
      rw [← halloc'] at hid
      have hid2 := List.mem_of_mem_take hid
      rw [mem_sortByKey] at hid2
      obtain ⟨g, hgf, hgid⟩ := List.mem_map.mp hid2
      have hpred := List.of_mem_filter hgf
      rw [Bool.and_eq_true] at hpred
      have hgav : g ∈ r.availableGpus := List.mem_of_mem_filter hgf
      have hgr : g ∈ r.gpus := List.mem_of_mem_filter hgav
      have hgall : g ∈ c.allGpus := mem_allGpus_of_mem_rack c r g hr hgr
      refine ⟨g, ?_, hpred.2⟩
      rw [← hgid]
      exact getGpu_of_mem c g huniq hgall
  · rw [if_neg hlen] at heq
    exact absurd heq (by simp)

theorem ppGlobalCandidate_good (c : Cluster) (occupied : List String) (m : ℚ)
    (n : ℕ) (huniq : c.uniqueIds) (hn : 1 ≤ n)
    (hav : 1 ≤ (ppAvailable c occupied m).length) :
    ppGlobalCandidate c (ppAvailable c occupied m) n ≠ [] ∧
      ∀ id ∈ ppGlobalCandidate c (ppAvailable c occupied m) n,
        ∃ g, c.getGpu id = some g ∧ g.can_allocate m = true := by
  constructor
  · intro hnil
    have hlen : (ppGlobalCandidate c (ppAvailable c occupied m) n).length = 0 := by
      rw [hnil]
      rfl
    unfold ppGlobalCandidate at hlen
    rw [List.length_take, List.length_map, length_sortByKey] at hlen
    omega
  · intro id hid
    unfold ppGlobalCandidate at hid
    have hid2 := List.mem_of_mem_take hid
    obtain ⟨g, hgs, hgid⟩ := List.mem_map.mp hid2
    rw [mem_sortByKey] at hgs
    unfold ppAvailable at hgs
    have hpred := List.of_mem_filter hgs
    rw [Bool.and_eq_true] at hpred
    have hgall : g ∈ c.allGpus := List.mem_of_mem_filter hgs
    refine ⟨g, ?_, hpred.2⟩
    rw [← hgid]
    exact getGpu_of_mem c g huniq hgall

theorem ppCandStep_good (alpha : ℕ) (c : Cluster) (m : ℚ) (n : ℕ)
    (st : Option (List String × ℕ × ℚ) × Option ℚ) (alloc : List String)
    (halloc : alloc ≠ [] ∧ ∀ id ∈ alloc, ∃ g, c.getGpu id = some g ∧
      g.can_allocate m = true)
    (hst : ∀ cand n' cost, st.1 = some (cand, n', cost) → cand ≠ [] ∧
      ∀ id ∈ cand, ∃ g, c.getGpu id = some g ∧ g.can_allocate m = true) :
    ∀ cand n' cost, (ppCandStep alpha c n st alloc).1 = some (cand, n', cost) →
      cand ≠ [] ∧ ∀ id ∈ cand, ∃ g, c.getGpu id = some g ∧
        g.can_allocate m = true := by
  intro cand n' cost h
  unfold ppCandStep at h
  rcases hs2 : st.2 with _ | sc
  · simp only [hs2, Option.some.injEq, Prod.mk.injEq] at h
    obtain ⟨h1, _⟩ := h
    rw [← h1]
    exact halloc
  · by_cases hgt : ppScore alpha n (ppCost c alloc) > sc
    · simp only [hs2, if_pos hgt, Option.some.injEq, Prod.mk.injEq] at h
      obtain ⟨h1, _⟩ := h
      rw [← h1]
      exact halloc
    · simp only [hs2, if_neg hgt] at h
      exact hst cand n' cost h

theorem foldl_ppCandStep_good (alpha : ℕ) (c : Cluster) (m : ℚ) (n : ℕ) :
    ∀ (cands : List (List String))
      (acc : Option (List String × ℕ × ℚ) × Option ℚ),
      (∀ a ∈ cands, a ≠ [] ∧ ∀ id ∈ a, ∃ g, c.getGpu id = some g ∧
        g.can_allocate m = true) →
      (∀ cand n' cost, acc.1 = some (cand, n', cost) → cand ≠ [] ∧
        ∀ id ∈ cand, ∃ g, c.getGpu id = some g ∧ g.can_allocate m = true) →
      ∀ cand n' cost,
        (cands.foldl (ppCandStep alpha c n) acc).1 = some (cand, n', cost) →
        cand ≠ [] ∧ ∀ id ∈ cand, ∃ g, c.getGpu id = some g ∧
          g.can_allocate m = true := by
  intro cands
  induction cands with
  | nil => intro acc _ hacc; exact hacc
  | cons a rest ih =>
    intro acc hcands hacc
    rw [List.foldl_cons]
    exact ih (ppCandStep alpha c n acc a)
      (fun x hx => hcands x (by simp [hx]))
      (ppCandStep_good alpha c m n acc a (hcands a (by simp)) hacc)

theorem ppBest_good (alpha : ℕ) (c : Cluster) (occupied : List String) (t : Task)
    (cand : List String) (n : ℕ) (cost : ℚ) (huniq : c.uniqueIds)
    (h : ppBest alpha c occupied t = some (cand, n, cost)) :
    cand ≠ [] ∧ ∀ id ∈ cand, ∃ g, c.getGpu id = some g ∧
      g.can_allocate t.memory_per_gpu = true := by
  unfold ppBest at h
  by_cases hav : (ppAvailable c occupied t.memory_per_gpu).length < 1
  · rw [if_pos hav] at h
    exact absurd h (by simp)
  · rw [if_neg hav] at h
    have hav' : 1 ≤ (ppAvailable c occupied t.memory_per_gpu).length := by omega
    have houter : ∀ (ns : List ℕ)
        (acc : Option (List String × ℕ × ℚ) × Option ℚ),
        (∀ k ∈ ns, 1 ≤ k) →
        (∀ cand' n' cost', acc.1 = some (cand', n', cost') → cand' ≠ [] ∧
          ∀ id ∈ cand', ∃ g, c.getGpu id = some g ∧
            g.can_allocate t.memory_per_gpu = true) →
        ∀ cand' n' cost',
          (ns.foldl (ppStepN alpha c occupied t.memory_per_gpu
            (ppAvailable c occupied t.memory_per_gpu)) acc).1 =
              some (cand', n', cost') →
          cand' ≠ [] ∧ ∀ id ∈ cand', ∃ g, c.getGpu id = some g ∧
            g.can_allocate t.memory_per_gpu = true := by
      intro ns
      induction ns with
      | nil => intro acc _ hacc; exact hacc
      | cons k ks ih =>
        intro acc hks hacc
        rw [List.foldl_cons]
        refine ih (ppStepN alpha c occupied t.memory_per_gpu
          (ppAvailable c occupied t.memory_per_gpu) acc k)
          (fun x hx => hks x (by simp [hx])) ?_
        unfold ppStepN
        refine foldl_ppCandStep_good alpha c t.memory_per_gpu k _ acc ?_ hacc
        intro a ha
        rcases List.mem_append.mp ha with ha | ha
        · exact ppRackCandidates_good c occupied t.memory_per_gpu k huniq
            (hks k (by simp)) a ha
        · have haeq : a = ppGlobalCandidate c
              (ppAvailable c occupied t.memory_per_gpu) k := by simpa using ha
          rw [haeq]
          exact ppGlobalCandidate_good c occupied t.memory_per_gpu k huniq
            (hks k (by simp)) hav'
    refine houter (((List.range (min t.num_gpus
        (ppAvailable c occupied t.memory_per_gpu).length)).map (· + 1)))
      (none, none) ?_ (by intro _ _ _ hc; exact absurd hc (by simp)) cand n cost h
    intro k hk
    obtain ⟨j, _, hj⟩ := List.mem_map.mp hk
    omega

/-- Claim C7 as amended: `PolluxPatientScheduler.__init__` ignores its
threshold argument and stores the constant `0.8`; in a `schedule` call,
when the candidate search finds a best option `cand` of total cost `cost`
for a pending job, the job is placed if and only if `1/cost ≥ 0.8` or
`now − submission_time > starvation_limit` — irrespective of the
constructor's threshold argument (`C7_counterexample`). -/
theorem C7_pp_efficiency_iff (alpha : ℕ) (pt limit now : ℚ) (allocs : Placements)
    (occupied : List String) (c : Cluster) (t : Task) (cand : List String)
    (n : ℕ) (cost : ℚ) (huniq : c.uniqueIds) (hp : t.status = .pending)
    (hb : ppBest alpha c occupied t = some (cand, n, cost)) :
    (ppStep alpha (mkPPSched alpha pt limit).patience_threshold limit now
        (allocs, occupied, c) t).1 =
      if 1 / cost ≥ 4/5 ∨ now - t.submission_time > limit
      then allocs ++ [(t.task_id, cand)] else allocs := by
  obtain ⟨hne, hmem⟩ := ppBest_good alpha c occupied t cand n cost huniq hb
  have hie : cand.isEmpty = false := by
    cases hc : cand with
    | nil => exact absurd hc hne
    | cons a l => rfl
  have hpt : (mkPPSched alpha pt limit).patience_threshold = 4/5 := rfl
  rw [hpt]
  by_cases hcond : 1 / cost ≥ 4/5 ∨ now - t.submission_time > limit
  · rw [if_pos hcond]
    unfold ppStep
    simp only [hb]
    rw [if_neg (show ¬(t.status ≠ TStatus.pending) from by simp [hp])]
    simp only [hie, Bool.false_eq_true, if_false]
    rw [if_pos hcond]
    rw [polluxAllocate_of_good c t cand hmem]
  · rw [if_neg hcond]
    unfold ppStep
    simp only [hb]
    rw [if_neg (show ¬(t.status ≠ TStatus.pending) from by simp [hp])]
    simp only [hie, Bool.false_eq_true, if_false]
    rw [if_neg hcond]

/-- Claim C7, refuted as stated: a `PolluxPatientScheduler` constructed
with efficiency threshold `0.5` still compares against the hardcoded
`0.8`.  On a fresh one-rack cluster with intra penalty `1.4`, the best
candidate for a 2-GPU job has total cost `1.4`, so `1/C_best = 5/7 ≥ 0.5`
and the job is not starving — the claim says it must be placed, but the
schedule call returns no placement. -/
theorem C7_counterexample :
    (mkPPSched 1 (1/2) 2000).patience_threshold ≠ 1/2 ∧
    ppBest 1 (mkCluster 1 2 80 (7/5) (21/10)) []
        { task_id := "t0", num_gpus := 2, memory_per_gpu := 40,
          submission_time := 0, estimated_duration := 100 } =
      some (["rack-0-0", "rack-0-1"], 2, 7/5) ∧
    (1 : ℚ) / (7/5) ≥ 1/2 ∧
    ¬ ((0 : ℚ) - 0 > 2000) ∧
    (ppSchedule (mkPPSched 1 (1/2) 2000) (mkCluster 1 2 80 (7/5) (21/10))
        [{ task_id := "t0", num_gpus := 2, memory_per_gpu := 40,
           submission_time := 0, estimated_duration := 100 }] 0).1 = [] := by
  refine ⟨by decide, by decide, by decide, by decide, by decide⟩

/-- Witness for C7's amended theorem at a concrete input: with the stored
threshold `0.8`, the same job (efficiency `5/7 < 0.8`, not starving) is
left pending. -/
theorem C7_witness :
    (ppStep 1 (mkPPSched 1 (1/2) 2000).patience_threshold 2000 0
        ([], [], mkCluster 1 2 80 (7/5) (21/10))
        { task_id := "t0", num_gpus := 2, memory_per_gpu := 40,
          submission_time := 0, estimated_duration := 100 }).1 =
      if (1 : ℚ) / (7/5) ≥ 4/5 ∨ (0 : ℚ) - 0 > 2000
      then [("t0", ["rack-0-0", "rack-0-1"])] else [] :=
  C7_pp_efficiency_iff 1 (1/2) 2000 0 [] [] (mkCluster 1 2 80 (7/5) (21/10))
    { task_id := "t0", num_gpus := 2, memory_per_gpu := 40,
      submission_time := 0, estimated_duration := 100 }
    ["rack-0-0", "rack-0-1"] 2 (7/5) (by decide) rfl (by decide)

/-! ## Claim C9 — zero timeline modulus aborts the run -/

/-- Claim C9, confirmed: with `0 < timeline_interval < 1` and a positive
`max_time`, the first loop iteration reaches the timeline-cadence test,
whose modulus `int(timeline_interval)` is zero, and the run aborts with a
division-by-zero error (no fuel is consumed past the first iteration and
no exit bookkeeping happens). -/
theorem C9_timeline_interval_div_zero (cfg : SimCfg) (sched : SchedFn)
    (maxTime : ℚ) (fuel : ℕ) (tasks : List Task) (c : Cluster)
    (h0 : 0 < cfg.timeline_interval) (h1 : cfg.timeline_interval < 1)
    (hmax : 0 < maxTime) (hfuel : 1 ≤ fuel) :
    runSim cfg sched maxTime fuel tasks c = .divByZero := by
  have hint : pyInt cfg.timeline_interval = 0 := by
    unfold pyInt
    rw [if_pos h0.le]
    exact Int.floor_eq_zero_iff.mpr (Set.mem_Ico.mpr ⟨h0.le, h1⟩)
  obtain ⟨n, rfl⟩ : ∃ n, fuel = n + 1 := ⟨fuel - 1, by omega⟩
  unfold runSim simLoop
  rw [if_pos hmax]
  have hstep : simStep cfg sched 0 (sortBySubmission tasks) c = none := by
    simp [simStep, hint]
  rw [hstep]

/-- Witness for C9 at a concrete input. -/
theorem C9_witness :
    runSim { timeline_interval := 1/2 } (fun cl _ _ => ([], cl)) 100 5 []
      (mkCluster 1 1 80 (7/5) (21/10)) = .divByZero :=
  C9_timeline_interval_div_zero { timeline_interval := 1/2 }
    (fun cl _ _ => ([], cl)) 100 5 [] (mkCluster 1 1 80 (7/5) (21/10))
    (by decide) (by decide) (by decide) (by decide)

/-! ## Claim C1 — job states at simulator exit -/

theorem finalSweep_no_pending (ts : List Task) :
    ∀ t ∈ finalSweep ts, t.status ≠ .pending := by
  intro t ht
  unfold finalSweep at ht
  obtain ⟨t0, _, rfl⟩ := List.mem_map.mp ht
  by_cases h : t0.status = .pending
  · rw [if_pos h]
    simp [Task.markStarved]
  · rw [if_neg h]
    exact h

theorem simLoop_no_pending (cfg : SimCfg) (sched : SchedFn) (maxTime : ℚ) :
    ∀ (fuel : ℕ) (now : ℚ) (tasks : List Task) (c : Cluster)
      (ts : List Task) (cl : Cluster) (tm : ℚ),
      simLoop cfg sched maxTime fuel now tasks c = .finished ts cl tm →
      ∀ t ∈ ts, t.status ≠ .pending := by
  intro fuel
  induction fuel with
  | zero =>
    intro now tasks c ts cl tm h
    simp only [simLoop] at h
    exact RunResult.noConfusion h
  | succ n ih =>
    intro now tasks c ts cl tm h
    simp only [simLoop] at h
    by_cases hlt : now < maxTime
    · rw [if_pos hlt] at h
      rcases hs : simStep cfg sched now tasks c with _ | ⟨ts', cl', done⟩
      · rw [hs] at h
        exact RunResult.noConfusion h
      · rw [hs] at h
        simp only at h
        cases done with
        | false =>
          simp only [Bool.false_eq_true, if_false] at h
          exact ih (now + cfg.time_step) ts' cl' ts cl tm h
        | true =>
          simp only [if_true] at h
          obtain ⟨h1, _, _⟩ := RunResult.finished.inj h
          rw [← h1]
          exact finalSweep_no_pending ts'
    · rw [if_neg hlt] at h
      obtain ⟨h1, _, _⟩ := RunResult.finished.inj h
      rw [← h1]
      exact finalSweep_no_pending tasks

/-- Claim C1 as amended: when `Simulator.run` exits normally, no job is
left `PENDING` — every job is `COMPLETED`, `STARVED`, or still `RUNNING`.
A job that is `RUNNING` when `now` reaches `max_time` stays `RUNNING` at
exit (`C1_counterexample`); only pending jobs are swept to `STARVED`. -/
theorem C1_no_pending_at_exit (cfg : SimCfg) (sched : SchedFn) (maxTime : ℚ)
    (fuel : ℕ) (tasks : List Task) (c : Cluster) (ts : List Task)
    (cl : Cluster) (tm : ℚ)
    (h : runSim cfg sched maxTime fuel tasks c = .finished ts cl tm) :
    ∀ t ∈ ts, t.status ≠ .pending :=
  simLoop_no_pending cfg sched maxTime fuel 0 (sortBySubmission tasks) c ts cl tm h

/-- Claim C1, refuted as stated: one 10-second job placed at time 0 on a
run with `max_time = 1` is still `RUNNING` when the loop stops; the exit
bookkeeping starves only `PENDING` jobs, so the run finishes with the job
in state `RUNNING`, not `COMPLETED` or `STARVED`. -/
theorem C1_counterexample :
    resultStatuses (runSim {}
        (fun cl pending _ =>
          ((pending.filterMap fun t =>
              if t.status = .pending then some (t.task_id, ["rack-0-0"]) else none).take 1,
            cl))
        1 2
        [{ task_id := "t0", num_gpus := 1, memory_per_gpu := 40,
           submission_time := 0, estimated_duration := 10 }]
        (mkCluster 1 1 80 (7/5) (21/10))) = some [TStatus.running] := by
  decide

/-- Witness for C1's amended theorem: the same run as the counterexample
finishes, and its (running) job is indeed not `PENDING`. -/
theorem C1_witness :
    Task.status
      { task_id := "t0", num_gpus := 1, memory_per_gpu := 40,
        submission_time := 0, estimated_duration := 10, status := .running,
        start_time := some 0, completion_time := none,
        allocated_gpus := ["rack-0-0"], actual_duration := none } ≠
      TStatus.pending :=
  C1_no_pending_at_exit {}
    (fun cl pending _ =>
      ((pending.filterMap fun t =>
          if t.status = .pending then some (t.task_id, ["rack-0-0"]) else none).take 1,
        cl))
    1 2
    [{ task_id := "t0", num_gpus := 1, memory_per_gpu := 40,
       submission_time := 0, estimated_duration := 10 }]
    (mkCluster 1 1 80 (7/5) (21/10))
    [{ task_id := "t0", num_gpus := 1, memory_per_gpu := 40,
       submission_time := 0, estimated_duration := 10, status := .running,
       start_time := some 0, completion_time := none,
       allocated_gpus := ["rack-0-0"], actual_duration := none }]
    (mkCluster 1 1 80 (7/5) (21/10)) 1 (by decide) _ (by simp)

/-! ## Claim C2 — placements are applied without a capacity re-check -/

theorem completionStep_getElem?_of_ne (cfg : SimCfg) (now : ℚ)
    (st : List Task × Cluster) (j i : ℕ) (hji : j ≠ i) :
    (completionStep cfg now st j).1[i]? = st.1[i]? := by
  unfold completionStep
  rcases hst : (st.1.getD j default).start_time with _ | s
  · simp only [hst]
  · simp only [hst]
    by_cases hemp : (st.1.getD j default).allocated_gpus.isEmpty
    · rw [if_pos hemp]
    · rw [if_neg hemp]
      by_cases hadj : (st.1.getD j default).estimated_duration *
          st.2.calculate_penalty (st.1.getD j default).allocated_gpus *
          getTaskSharingPenalty cfg st.2 (st.1.getD j default) ≤ now - s
      · rw [if_pos hadj]
        exact List.getElem?_set_ne hji
      · rw [if_neg hadj]

theorem completionPhase_getElem?_of_not_mem (cfg : SimCfg) (now : ℚ) (i : ℕ) :
    ∀ (rIdx : List ℕ) (ts : List Task) (cl : Cluster), i ∉ rIdx →
      (completionPhase cfg now rIdx ts cl).1[i]? = ts[i]? := by
  intro rIdx
  induction rIdx with
  | nil => intro ts cl _; rfl
  | cons j js ih =>
    intro ts cl hni
    have hji : j ≠ i := fun h => hni (by simp [h])
    have hnj : i ∉ js := fun h => hni (by simp [h])
    unfold completionPhase at ih ⊢
    rw [List.foldl_cons]
    have hrec : (js.foldl (completionStep cfg now) (completionStep cfg now (ts, cl) j)).1[i]? =
        (completionStep cfg now (ts, cl) j).1[i]? := by
      have := ih (completionStep cfg now (ts, cl) j).1
        (completionStep cfg now (ts, cl) j).2 hnj
      simpa using this
    rw [hrec]
    exact completionStep_getElem?_of_ne cfg now (ts, cl) j i hji

/-- Claim C2 as amended: the simulator applies a returned placement
unconditionally.  For a pending, non-starving job of the snapshot whose id
the scheduler returns (matched first in the pending snapshot), the
simulator transitions the job to `RUNNING` at `now` with that placement —
even when the placement fails GPU-level `can_allocate` at application time
(the failing-capacity hypothesis below is never consulted; there is no
rejection path, cf. `C2_counterexample`). -/
theorem C2_placement_applied_unconditionally (cfg : SimCfg) (sched : SchedFn)
    (now : ℚ) (tasks : List Task) (c : Cluster) (t : Task) (i : ℕ)
    (gpus : List String) (cl1 : Cluster)
    (hti : pyInt cfg.timeline_interval ≠ 0)
    (hget : tasks[i]? = some t)
    (hp : t.status = .pending) (hsub : t.submission_time ≤ now)
    (hnost : gtThr (now - t.submission_time) cfg.starvation_threshold = false)
    (hsched : sched c ((pendingIdxs tasks now).map fun j =>
        (sweepPhase now cfg.starvation_threshold tasks).getD j default) now =
      ([(t.task_id, gpus)], cl1))
    (hfirst : (pendingIdxs tasks now).find? (fun j =>
        ((sweepPhase now cfg.starvation_threshold tasks).getD j default).task_id ==
          t.task_id) = some i)
    (hfail : ∃ id ∈ gpus,
      ((cl1.getGpu id).map fun g => g.can_allocate t.memory_per_gpu) = some false) :
    (simStep cfg sched now tasks c).map (fun r => r.1[i]?) =
      some (some (Task.start t now gpus)) := by
  have hlen : i < tasks.length := (List.getElem?_eq_some_iff.mp hget).1
  have hts1 : (sweepPhase now cfg.starvation_threshold tasks)[i]? = some t := by
    unfold sweepPhase
    rw [List.getElem?_map, hget]
    simp only [Option.map_some']
    rw [hnost]
    simp
  have hts1len : (sweepPhase now cfg.starvation_threshold tasks).length =
      tasks.length := by
    unfold sweepPhase
    exact List.length_map ..
  have hgetD : (sweepPhase now cfg.starvation_threshold tasks).getD i default = t := by
    rw [List.getD_eq_getElem?_getD, hts1]
    rfl
  have hts2 : (applyPhase now [(t.task_id, gpus)] (pendingIdxs tasks now)
      (sweepPhase now cfg.starvation_threshold tasks))[i]? =
      some (Task.start t now gpus) := by
    unfold applyPhase
    rw [List.foldl_cons, List.foldl_nil]
    unfold applyOne
    rw [hfirst]
    simp only
    rw [hgetD]
    exact List.getElem?_set_eq_of_lt (Task.start t now gpus) (by omega)
  have hnotrun : i ∉ runningIdxs tasks := by
    unfold runningIdxs
    intro hmem
    have hpred := List.of_mem_filter hmem
    rw [List.getD_eq_getElem?_getD, hget] at hpred
    simp [hp] at hpred
  unfold simStep
  simp only [hsched]
  rw [if_neg hti]
  simp only [Option.map_some', Option.some.injEq]
  rw [completionPhase_getElem?_of_not_mem cfg now i (runningIdxs tasks) _ _ hnotrun]
  exact hts2

/-- Claim C2, refuted as stated: a scheduler returns a placement on a GPU
that cannot hold the job's 100 GB (capacity 80 GB) — `can_allocate` is
false at application time — yet the simulator starts the job, which is
`RUNNING` at exit instead of being left `PENDING`. -/
theorem C2_counterexample :
    (((mkCluster 1 1 80 (7/5) (21/10)).getGpu "rack-0-0").map fun g =>
        g.can_allocate 100) = some false ∧
    resultStatuses (runSim {} (fun cl _ _ => ([("t0", ["rack-0-0"])], cl)) 1 2
        [{ task_id := "t0", num_gpus := 1, memory_per_gpu := 100,
           submission_time := 0, estimated_duration := 10 }]
        (mkCluster 1 1 80 (7/5) (21/10))) = some [TStatus.running] := by
  refine ⟨by decide, by decide⟩

/-- Witness for C2's amended theorem at the counterexample's input. -/
theorem C2_witness :
    (simStep {} (fun cl _ _ => ([("t0", ["rack-0-0"])], cl)) 0
        [{ task_id := "t0", num_gpus := 1, memory_per_gpu := 100,
           submission_time := 0, estimated_duration := 10 }]
        (mkCluster 1 1 80 (7/5) (21/10))).map (fun r => r.1[0]?) =
      some (some (Task.start
        { task_id := "t0", num_gpus := 1, memory_per_gpu := 100,
          submission_time := 0, estimated_duration := 10 } 0 ["rack-0-0"])) :=
  C2_placement_applied_unconditionally {} (fun cl _ _ => ([("t0", ["rack-0-0"])], cl))
    0
    [{ task_id := "t0", num_gpus := 1, memory_per_gpu := 100,
       submission_time := 0, estimated_duration := 10 }]
    (mkCluster 1 1 80 (7/5) (21/10))
    { task_id := "t0", num_gpus := 1, memory_per_gpu := 100,
      submission_time := 0, estimated_duration := 10 }
    0 ["rack-0-0"] (mkCluster 1 1 80 (7/5) (21/10))
    (by decide) (by decide) rfl (by decide) (by decide) rfl (by decide)
    ⟨"rack-0-0", by decide, by decide⟩

/-! ## Claim C10 — no completion in the tick a job starts -/

theorem applyOne_mem (now : ℚ) (pIdx : List ℕ) (ts : List Task)
    (e : String × List String) (t' : Task) (h : t' ∈ applyOne now pIdx ts e) :
    t' ∈ ts ∨ ∃ t0 g, t' = Task.start t0 now g := by
  unfold applyOne at h
  rcases hf : pIdx.find? (fun i => (ts.getD i default).task_id == e.1) with _ | k
  · rw [hf] at h
    exact Or.inl h
  · rw [hf] at h
    rcases List.mem_or_eq_of_mem_set h with h2 | h2
    · exact Or.inl h2
    · exact Or.inr ⟨ts.getD k default, e.2, h2⟩

theorem applyPhase_mem (now : ℚ) (pIdx : List ℕ) :
    ∀ (allocs : Placements) (ts : List Task) (t' : Task),
      t' ∈ applyPhase now allocs pIdx ts →
      t' ∈ ts ∨ ∃ t0 g, t' = Task.start t0 now g := by
  intro allocs
  induction allocs with
  | nil => intro ts t' h; exact Or.inl h
  | cons e es ih =>
    intro ts t' h
    unfold applyPhase at h ih
    rw [List.foldl_cons] at h
    rcases ih (applyOne now pIdx ts e) t' h with h2 | h2
    · exact applyOne_mem now pIdx ts e t' h2
    · exact Or.inr h2

theorem applyPhase_getElem?_of_not_mem (now : ℚ) (pIdx : List ℕ) (j : ℕ)
    (hj : j ∉ pIdx) :
    ∀ (allocs : Placements) (ts : List Task),
      (applyPhase now allocs pIdx ts)[j]? = ts[j]? := by
  intro allocs
  induction allocs with
  | nil => intro ts; rfl
  | cons e es ih =>
    intro ts
    unfold applyPhase at ih ⊢
    rw [List.foldl_cons, ih (applyOne now pIdx ts e)]
    unfold applyOne
    rcases hf : pIdx.find? (fun i => (ts.getD i default).task_id == e.1) with _ | k
    · rfl
    · have hk : k ∈ pIdx := List.mem_of_find?_eq_some hf
      have hkj : k ≠ j := fun h => hj (h ▸ hk)
      exact List.getElem?_set_ne hkj

theorem completionFold_inv (cfg : SimCfg) (now : ℚ) :
    ∀ (idxs : List ℕ) (ts : List Task) (cl : Cluster),
      idxs.Nodup →
      (∀ j ∈ idxs, ∀ s, (ts.getD j default).start_time = some s →
        s + cfg.time_step ≤ now) →
      (∀ t ∈ ts,
        (t.status = .running → ∃ s, t.start_time = some s ∧ s ≤ now) ∧
        (t.status = .completed → ∃ s cpl, t.start_time = some s ∧
          t.completion_time = some cpl ∧ s + cfg.time_step ≤ cpl)) →
      ∀ t ∈ (completionPhase cfg now idxs ts cl).1,
        (t.status = .running → ∃ s, t.start_time = some s ∧ s ≤ now) ∧
        (t.status = .completed → ∃ s cpl, t.start_time = some s ∧
          t.completion_time = some cpl ∧ s + cfg.time_step ≤ cpl) := by
  intro idxs
  induction idxs with
  | nil => intro ts cl _ _ hP; exact hP
  | cons j js ih =>
    intro ts cl hnd hQ hP
    rw [List.nodup_cons] at hnd
    unfold completionPhase at ih ⊢
    rw [List.foldl_cons]
    have hset : ∀ (ts' : List Task), (completionStep cfg now (ts, cl) j).1 = ts' →
        js.foldl (completionStep cfg now) (completionStep cfg now (ts, cl) j) =
        js.foldl (completionStep cfg now)
          ((completionStep cfg now (ts, cl) j).1, (completionStep cfg now (ts, cl) j).2) := by
      intro _ _
      rfl
    have hmain : ∀ t ∈ (js.foldl (completionStep cfg now)
        ((completionStep cfg now (ts, cl) j).1,
          (completionStep cfg now (ts, cl) j).2)).1,
        (t.status = .running → ∃ s, t.start_time = some s ∧ s ≤ now) ∧
        (t.status = .completed → ∃ s cpl, t.start_time = some s ∧
          t.completion_time = some cpl ∧ s + cfg.time_step ≤ cpl) := by
      apply ih
      · exact hnd.2
      · intro k hk s hs
        have hkj : j ≠ k := fun h => hnd.1 (h ▸ hk)
        rw [List.getD_eq_getElem?_getD,
          completionStep_getElem?_of_ne cfg now (ts, cl) j k hkj,
          ← List.getD_eq_getElem?_getD] at hs
        exact hQ k (by simp [hk]) s hs
      · intro t ht
        unfold completionStep at ht
        dsimp only at ht
        rcases hst : (ts.getD j default).start_time with _ | s
        · rw [hst] at ht
          exact hP t ht
        · rw [hst] at ht
          simp only at ht
          by_cases hemp : (ts.getD j default).allocated_gpus.isEmpty
          · rw [if_pos hemp] at ht
            exact hP t ht
          · rw [if_neg hemp] at ht
            by_cases hadj : (ts.getD j default).estimated_duration *
                cl.calculate_penalty (ts.getD j default).allocated_gpus *
                getTaskSharingPenalty cfg cl (ts.getD j default) ≤ now - s
            · rw [if_pos hadj] at ht
              rcases List.mem_or_eq_of_mem_set ht with h2 | h2
              · exact hP t h2
              · rw [h2]
                constructor
                · intro hrun
                  exact absurd hrun (by simp [Task.complete])
                · intro _
                  refine ⟨s, now, ?_, ?_, ?_⟩
                  · simp only [Task.complete]
                    exact hst
                  · simp only [Task.complete]
                  · exact hQ j (by simp) s hst
            · rw [if_neg hadj] at ht
              exact hP t ht
    intro t ht
    exact hmain t ht

theorem simStep_inv (cfg : SimCfg) (sched : SchedFn) (now : ℚ)
    (tasks : List Task) (c : Cluster) (ts' : List Task) (cl' : Cluster)
    (d : Bool) (hdt : 0 ≤ cfg.time_step)
    (hA : ∀ t ∈ tasks, t.status = .running → ∃ s, t.start_time = some s ∧
      s + cfg.time_step ≤ now)
    (hB : ∀ t ∈ tasks, t.status = .completed → ∃ s cpl, t.start_time = some s ∧
      t.completion_time = some cpl ∧ s + cfg.time_step ≤ cpl)
    (hs : simStep cfg sched now tasks c = some (ts', cl', d)) :
    (∀ t ∈ ts', t.status = .running → ∃ s, t.start_time = some s ∧
      s + cfg.time_step ≤ now + cfg.time_step) ∧
    (∀ t ∈ ts', t.status = .completed → ∃ s cpl, t.start_time = some s ∧
      t.completion_time = some cpl ∧ s + cfg.time_step ≤ cpl) := by
  simp only [simStep] at hs
  by_cases hti : pyInt cfg.timeline_interval = 0
  · rw [if_pos hti] at hs
    exact Option.noConfusion hs
  · rw [if_neg hti] at hs
    simp only [Option.some.injEq, Prod.mk.injEq] at hs
    obtain ⟨h1, _, _⟩ := hs
    have hts1 : ∀ t ∈ sweepPhase now cfg.starvation_threshold tasks,
        (t.status = .running → ∃ s, t.start_time = some s ∧ s ≤ now) ∧
        (t.status = .completed → ∃ s cpl, t.start_time = some s ∧
          t.completion_time = some cpl ∧ s + cfg.time_step ≤ cpl) := by
      intro t ht
      unfold sweepPhase at ht
      obtain ⟨t0, ht0, rfl⟩ := List.mem_map.mp ht
      by_cases hcond : (isPendingAt now t0 &&
          gtThr (now - t0.submission_time) cfg.starvation_threshold) = true
      · rw [if_pos hcond]
        constructor
        · intro hrun
          exact absurd hrun (by simp [Task.markStarved])
        · intro hcpl
          exact absurd hcpl (by simp [Task.markStarved])
      · rw [if_neg hcond]
        constructor
        · intro hrun
          obtain ⟨s, hs1, hs2⟩ := hA t0 ht0 hrun
          exact ⟨s, hs1, by linarith⟩
        · exact hB t0 ht0
    have hts2 : ∀ t ∈ applyPhase now
        (sched c ((pendingIdxs tasks now).map fun i =>
          (sweepPhase now cfg.starvation_threshold tasks).getD i default) now).1
        (pendingIdxs tasks now) (sweepPhase now cfg.starvation_threshold tasks),
        (t.status = .running → ∃ s, t.start_time = some s ∧ s ≤ now) ∧
        (t.status = .completed → ∃ s cpl, t.start_time = some s ∧
          t.completion_time = some cpl ∧ s + cfg.time_step ≤ cpl) := by
      intro t ht
      rcases applyPhase_mem now (pendingIdxs tasks now) _ _ t ht with h2 | ⟨t0, g, rfl⟩
      · exact hts1 t h2
      · constructor
        · intro _
          exact ⟨now, by simp [Task.start], le_refl now⟩
        · intro hcpl
          exact absurd hcpl (by simp [Task.start])
    have hQ : ∀ j ∈ runningIdxs tasks, ∀ s,
        ((applyPhase now
          (sched c ((pendingIdxs tasks now).map fun i =>
            (sweepPhase now cfg.starvation_threshold tasks).getD i default) now).1
          (pendingIdxs tasks now)
          (sweepPhase now cfg.starvation_threshold tasks)).getD j default).start_time =
          some s → s + cfg.time_step ≤ now := by
      intro j hj s hs
      have hjrange : j < tasks.length := by
        have := List.mem_of_mem_filter hj
        simpa using List.mem_range.mp this
      have hjrun : (tasks.getD j default).status = .running := by
        have := List.of_mem_filter hj
        simpa using this
      have hjpend : j ∉ pendingIdxs tasks now := by
        intro hmem
        have := List.of_mem_filter hmem
        unfold isPendingAt at this
        rw [Bool.and_eq_true] at this
        have h2 := of_decide_eq_true this.2
        rw [hjrun] at h2
        exact TStatus.noConfusion h2
      have hsw : (sweepPhase now cfg.starvation_threshold tasks)[j]? =
          some (tasks.getD j default) := by
        unfold sweepPhase
        rw [List.getElem?_map]
        have : tasks[j]? = some (tasks.getD j default) := by
          rw [List.getD_eq_getElem?_getD]
          rcases hg : tasks[j]? with _ | t0
          · rw [List.getElem?_eq_none_iff] at hg
            omega
          · rfl
        rw [this]
        simp only [Option.map_some']
        have hcond : (isPendingAt now (tasks.getD j default) &&
            gtThr (now - (tasks.getD j default).submission_time)
              cfg.starvation_threshold) = false := by
          unfold isPendingAt
          rw [hjrun]
          simp
        rw [hcond]
        simp
      rw [List.getD_eq_getElem?_getD,
        applyPhase_getElem?_of_not_mem now (pendingIdxs tasks now) j hjpend,
        hsw] at hs
      simp only [Option.getD_some] at hs
      have hmem : tasks.getD j default ∈ tasks := by
        apply List.getElem?_mem
        rw [List.getD_eq_getElem?_getD]
        rcases hg : tasks[j]? with _ | t0
        · rw [List.getElem?_eq_none_iff] at hg
          omega
        · rfl
      obtain ⟨s0, hs0, hs0'⟩ := hA (tasks.getD j default) hmem hjrun
      rw [hs0] at hs
      rw [← Option.some.inj hs]
      exact hs0'
    have hnodup : (runningIdxs tasks).Nodup := by
      unfold runningIdxs
      exact (List.nodup_range tasks.length).filter _
    have hout := completionFold_inv cfg now (runningIdxs tasks)
      (applyPhase now (sched c ((pendingIdxs tasks now).map fun i =>
          (sweepPhase now cfg.starvation_threshold tasks).getD i default) now).1
        (pendingIdxs tasks now) (sweepPhase now cfg.starvation_threshold tasks))
      (sched c ((pendingIdxs tasks now).map fun i =>
          (sweepPhase now cfg.starvation_threshold tasks).getD i default) now).2
      hnodup hQ hts2
    rw [h1] at hout
    constructor
    · intro t ht hrun
      obtain ⟨s, hs1, hs2⟩ := (hout t ht).1 hrun
      exact ⟨s, hs1, by linarith⟩
    · intro t ht
      exact (hout t ht).2
  
theorem finalSweep_completed_good (cfg : SimCfg) (ts : List Task)
    (hB : ∀ t ∈ ts, t.status = .completed → ∃ s cpl, t.start_time = some s ∧
      t.completion_time = some cpl ∧ s + cfg.time_step ≤ cpl) :
    ∀ t ∈ finalSweep ts, t.status = .completed → ∃ s cpl, t.start_time = some s ∧
      t.completion_time = some cpl ∧ s + cfg.time_step ≤ cpl := by
  intro t ht
  unfold finalSweep at ht
  obtain ⟨t0, ht0, rfl⟩ := List.mem_map.mp ht
  by_cases h : t0.status = .pending
  · rw [if_pos h]
    intro hcpl
    exact absurd hcpl (by simp [Task.markStarved])
  · rw [if_neg h]
    exact hB t0 ht0

theorem simLoop_completed_good (cfg : SimCfg) (sched : SchedFn) (maxTime : ℚ)
    (hdt : 0 ≤ cfg.time_step) :
    ∀ (fuel : ℕ) (now : ℚ) (tasks : List Task) (c : Cluster)
      (ts : List Task) (cl : Cluster) (tm : ℚ),
      (∀ t ∈ tasks, t.status = .running → ∃ s, t.start_time = some s ∧
        s + cfg.time_step ≤ now) →
      (∀ t ∈ tasks, t.status = .completed → ∃ s cpl, t.start_time = some s ∧
        t.completion_time = some cpl ∧ s + cfg.time_step ≤ cpl) →
      simLoop cfg sched maxTime fuel now tasks c = .finished ts cl tm →
      ∀ t ∈ ts, t.status = .completed → ∃ s cpl, t.start_time = some s ∧
        t.completion_time = some cpl ∧ s + cfg.time_step ≤ cpl := by
  intro fuel
  induction fuel with
  | zero =>
    intro now tasks c ts cl tm _ _ h
    simp only [simLoop] at h
    exact RunResult.noConfusion h
  | succ n ih =>
    intro now tasks c ts cl tm hA hB h
    simp only [simLoop] at h
    by_cases hlt : now < maxTime
    · rw [if_pos hlt] at h
      rcases hs : simStep cfg sched now tasks c with _ | ⟨ts2, cl2, done⟩
      · rw [hs] at h
        exact RunResult.noConfusion h
      · rw [hs] at h
        simp only at h
        obtain ⟨hA2, hB2⟩ := simStep_inv cfg sched now tasks c ts2 cl2 done
          hdt hA hB hs
        cases done with
        | false =>
          simp only [Bool.false_eq_true, if_false] at h
          exact ih (now + cfg.time_step) ts2 cl2 ts cl tm hA2 hB2 h
        | true =>
          simp only [if_true] at h
          obtain ⟨h1, _, _⟩ := RunResult.finished.inj h
          rw [← h1]
          exact finalSweep_completed_good cfg ts2 hB2
    · rw [if_neg hlt] at h
      obtain ⟨h1, _, _⟩ := RunResult.finished.inj h
      rw [← h1]
      exact finalSweep_completed_good cfg tasks hB

/-- Claim C10, confirmed: for a non-negative `time_step` and a workload of
pending jobs, a job never completes in the tick it starts — the completion
check runs over the snapshot of jobs already `RUNNING` before scheduling,
so every job the run completes has
`completion_time ≥ start_time + time_step` (in particular a
zero-duration job completes one `time_step` after its start). -/
theorem C10_completion_after_start (cfg : SimCfg) (sched : SchedFn)
    (maxTime : ℚ) (fuel : ℕ) (tasks : List Task) (c : Cluster)
    (ts : List Task) (cl : Cluster) (tm : ℚ) (hdt : 0 ≤ cfg.time_step)
    (hpend : ∀ t ∈ tasks, t.status = .pending)
    (h : runSim cfg sched maxTime fuel tasks c = .finished ts cl tm) :
    ∀ t ∈ ts, t.status = .completed → ∃ s cpl, t.start_time = some s ∧
      t.completion_time = some cpl ∧ s + cfg.time_step ≤ cpl := by
  unfold runSim at h
  refine simLoop_completed_good cfg sched maxTime hdt fuel 0
    (sortBySubmission tasks) c ts cl tm ?_ ?_ h
  · intro t ht hrun
    have : t ∈ tasks := by
      unfold sortBySubmission at ht
      exact (mem_sortByKey Task.submission_time tasks t).mp ht
    rw [hpend t this] at hrun
    exact TStatus.noConfusion hrun
  · intro t ht hcpl
    have : t ∈ tasks := by
      unfold sortBySubmission at ht
      exact (mem_sortByKey Task.submission_time tasks t).mp ht
    rw [hpend t this] at hcpl
    exact TStatus.noConfusion hcpl

/-- Witness for C10 at a concrete input: a zero-duration job placed at
time 0 with `time_step = 1` is completed at time 1 = start + step. -/
theorem C10_witness :
    ∃ s cpl,
      Task.start_time
        { task_id := "t0", num_gpus := 1, memory_per_gpu := 40,
          submission_time := 0, estimated_duration := 0, status := .completed,
          start_time := some 0, completion_time := some 1,
          allocated_gpus := ["rack-0-0"], actual_duration := some 1 } = some s ∧
      Task.completion_time
        { task_id := "t0", num_gpus := 1, memory_per_gpu := 40,
          submission_time := 0, estimated_duration := 0, status := .completed,
          start_time := some 0, completion_time := some 1,
          allocated_gpus := ["rack-0-0"], actual_duration := some 1 } = some cpl ∧
      s + SimCfg.time_step {} ≤ cpl :=
  C10_completion_after_start {}
    (fun cl pending _ =>
      ((pending.filterMap fun t =>
          if t.status = .pending then some (t.task_id, ["rack-0-0"]) else none).take 1,
        cl))
    10 5
    [{ task_id := "t0", num_gpus := 1, memory_per_gpu := 40,
       submission_time := 0, estimated_duration := 0 }]
    (mkCluster 1 1 80 (7/5) (21/10))
    [{ task_id := "t0", num_gpus := 1, memory_per_gpu := 40,
       submission_time := 0, estimated_duration := 0, status := .completed,
       start_time := some 0, completion_time := some 1,
       allocated_gpus := ["rack-0-0"], actual_duration := some 1 }]
    (mkCluster 1 1 80 (7/5) (21/10)) 1
    (by decide) (by decide) (by decide) _ (by simp) (by decide)

end MinGpu
